import Mathlib

/-!
Shallow embedding of the git-bug bridge import core: the streamed result
model (`bridge/core`), the operation-log / snapshot data model (`bug`),
and the three importers (`bridge/github`, `bridge/gitlab`,
`bridge/launchpad`).  Pieces of the repository that the importers call
but whose sources are not part of this tree (the `cache` package lookup
primitives, the `bug` package append primitives and replay) are modelled
from the specification and marked as such in their doc comments.
-/

namespace GitBug

/-! ## bridge/core: the streamed import result model -/

/-- ImportEvent enumeration from bridge/core. The Go zero value (an
`ImportEvent` that was never set, as happens in `NewImportError`) is
modelled by the `unset` constructor. -/
inductive ImportEvent where
  | unset
  | bug
  | comment
  | commentEdition
  | statusChange
  | titleEdition
  | labelChange
  | identity
  | nothing
deriving DecidableEq, Repr

/-- ImportResult from bridge/core: an event emitted on the result stream.
`err = none` models a nil `Err` field. -/
structure ImportResult where
  err : Option String
  event : ImportEvent
  id : String
  reason : String
deriving DecidableEq, Repr

def NewImportError (err : Option String) (reason : String) : ImportResult :=
  { err := err, event := .unset, id := "", reason := reason }

def NewImportNothing (id : String) (reason : String) : ImportResult :=
  { err := none, event := .nothing, id := id, reason := reason }

def NewImportBug (id : String) : ImportResult :=
  { err := none, event := .bug, id := id, reason := "" }

def NewImportComment (id : String) : ImportResult :=
  { err := none, event := .comment, id := id, reason := "" }

def NewImportCommentEdition (id : String) : ImportResult :=
  { err := none, event := .commentEdition, id := id, reason := "" }

def NewImportStatusChange (id : String) : ImportResult :=
  { err := none, event := .statusChange, id := id, reason := "" }

def NewImportLabelChange (id : String) : ImportResult :=
  { err := none, event := .labelChange, id := id, reason := "" }

def NewImportTitleEdition (id : String) : ImportResult :=
  { err := none, event := .titleEdition, id := id, reason := "" }

def NewImportIdentity (id : String) : ImportResult :=
  { err := none, event := .identity, id := id, reason := "" }

/-- Error values the importers distinguish: `cache.ErrNoMatchingOp`,
`bug.ErrBugNotExist`, `identity.ErrMultipleMatch`, identity not found,
`ctx.Err()` after cancellation, and generic wrapped errors. -/
inductive ImpErr where
  | noMatchingOp
  | bugNotExist
  | multipleMatch
  | notFound
  | canceled
  | other (msg : String)
deriving DecidableEq, Repr

/-- Error message string, as consumed by `fmt.Errorf` wrapping. The texts
for errors defined outside the given sources are modelled. -/
def ImpErr.msg : ImpErr → String
  | .noMatchingOp => "no matching operation found"
  | .bugNotExist => "bug does not exist in the cache"
  | .multipleMatch => "multiple identities matching the metadata"
  | .notFound => "identity not found"
  | .canceled => "context canceled"
  | .other m => m

/-- Outcome of one importer helper: success, a returned Go error, or a
runtime panic (nil dereference / out-of-range index), which kills the
goroutine without emitting anything further. -/
inductive Outcome (α : Type) where
  | ok (a : α)
  | err (e : ImpErr)
  | crash (msg : String)
deriving DecidableEq, Repr

/-! ## bug package: operations, operation log, replayed comments -/

/-- Kinds of operations appended by the importers. -/
inductive OpKind where
  | create
  | addComment
  | editComment
  | setStatusClose
  | setStatusOpen
  | setTitle
  | labelChange
deriving DecidableEq, Repr

def OpKind.tag : OpKind → String
  | .create => "create"
  | .addComment => "addComment"
  | .editComment => "editComment"
  | .setStatusClose => "close"
  | .setStatusOpen => "open"
  | .setTitle => "setTitle"
  | .labelChange => "labelChange"

/-- One operation of an operation log: author reference, timestamp,
typed payload fields and the open string-keyed metadata map (Section 3
of the specification). The hash is a pure function of the content,
computed once at creation. -/
structure Operation where
  kind : OpKind
  author : String
  unixTime : Int
  message : String := ""
  title : String := ""
  editTarget : String := ""
  added : List String := []
  removed : List String := []
  metadata : List (String × String) := []
  hash : String
deriving DecidableEq, Repr

/-- GetMetadata from the Operation interface: `(value, ok)` modelled as
an `Option`. -/
def Operation.GetMetadata (op : Operation) (key : String) : Option String :=
  (op.metadata.find? (fun kv => kv.1 = key)).map (fun kv => kv.2)

/-- Modelled from the spec: `Hash(operation) → contentHash` is a stable
pure function of the operation content (Section 4.1); the concrete git
blob hashing is outside the given sources. An injective-enough string
encoding of the content stands in for it. -/
def contentHash (kind : OpKind) (author : String) (unixTime : Int)
    (message title editTarget : String) (added removed : List String)
    (md : List (String × String)) : String :=
  "h:" ++ kind.tag ++ ":" ++ author ++ ":" ++ toString unixTime ++ ":" ++
    message ++ ":" ++ title ++ ":" ++ editTarget ++ ":" ++
    String.intercalate "," added ++ ":" ++ String.intercalate "," removed ++ ":" ++
    String.intercalate "," (md.map (fun kv => kv.1 ++ "=" ++ kv.2))

def mkOp (kind : OpKind) (author : String) (unixTime : Int)
    (message title editTarget : String) (added removed : List String)
    (md : List (String × String)) : Operation :=
  { kind := kind, author := author, unixTime := unixTime, message := message,
    title := title, editTarget := editTarget, added := added, removed := removed,
    metadata := md,
    hash := contentHash kind author unixTime message title editTarget added removed md }

/-- An entity: the append-only ordered operation log of one bug. -/
structure BugState where
  ops : List Operation
deriving DecidableEq, Repr

/-- Entity id: the hash of the first (creation) operation (Section 3). -/
def BugState.id (b : BugState) : String :=
  (b.ops.head?.map (fun op => op.hash)).getD ""

/-- Modelled from the spec: `Append` appends exactly one operation to the
log (Section 4.1); the cache.BugCache `*Raw` write paths are not among
the given sources. -/
def BugState.append (b : BugState) (op : Operation) : BugState :=
  { ops := b.ops ++ [op] }

/-- Modelled from the spec: cache.BugCache.AddCommentRaw — append one
add-comment operation. -/
def BugState.addCommentRaw (b : BugState) (author : String) (unixTime : Int)
    (message : String) (md : List (String × String)) : BugState × Operation :=
  let op := mkOp .addComment author unixTime message "" "" [] [] md
  (b.append op, op)

/-- Modelled from the spec: cache.BugCache.EditCommentRaw — edits are
separate operations referencing the target operation hash (Section 4.5). -/
def BugState.editCommentRaw (b : BugState) (author : String) (unixTime : Int)
    (target message : String) (md : List (String × String)) : BugState × Operation :=
  let op := mkOp .editComment author unixTime message "" target [] [] md
  (b.append op, op)

/-- Modelled from the spec: cache.BugCache.CloseRaw. -/
def BugState.closeRaw (b : BugState) (author : String) (unixTime : Int)
    (md : List (String × String)) : BugState × Operation :=
  let op := mkOp .setStatusClose author unixTime "" "" "" [] [] md
  (b.append op, op)

/-- Modelled from the spec: cache.BugCache.OpenRaw. -/
def BugState.openRaw (b : BugState) (author : String) (unixTime : Int)
    (md : List (String × String)) : BugState × Operation :=
  let op := mkOp .setStatusOpen author unixTime "" "" "" [] [] md
  (b.append op, op)

/-- Modelled from the spec: cache.BugCache.SetTitleRaw. -/
def BugState.setTitleRaw (b : BugState) (author : String) (unixTime : Int)
    (title : String) (md : List (String × String)) : BugState × Operation :=
  let op := mkOp .setTitle author unixTime "" title "" [] [] md
  (b.append op, op)

/-- Modelled from the spec: cache.BugCache.ForceChangeLabelsRaw. -/
def BugState.forceChangeLabelsRaw (b : BugState) (author : String) (unixTime : Int)
    (added removed : List String) (md : List (String × String)) : BugState × Operation :=
  let op := mkOp .labelChange author unixTime "" "" "" added removed md
  (b.append op, op)

/-- Modelled from the spec: `ResolveOperationByMetadata(entity, key, value)
→ operationHash | NoMatchingOp` (Section 4.3) — the operation-granularity
idempotency lookup; the cache package implementing it is not among the
given sources. -/
def BugState.resolveOperationWithMetadata (b : BugState) (key value : String) :
    Except ImpErr String :=
  match b.ops.find? (fun op => op.GetMetadata key = some value) with
  | some op => .ok op.hash
  | none => .error .noMatchingOp

/-- A comment of the replayed snapshot: its id is the hash of the
operation that introduced it. -/
structure Comment where
  id : String
  message : String
deriving DecidableEq, Repr

/-- Modelled from the spec: the comment list of `Replay(entity)`
(Sections 3 and 4.1) — `Comments[0]` corresponds to the creation
operation body, add-comment operations append comments, comment-edit
operations replace the message of the comment whose id is the edit
target. The bug package replay code is not among the given sources. -/
def snapshotComments (ops : List Operation) : List Comment :=
  ops.foldl
    (fun cs op =>
      match op.kind with
      | .create => cs ++ [{ id := op.hash, message := op.message }]
      | .addComment => cs ++ [{ id := op.hash, message := op.message }]
      | .editComment =>
          cs.map (fun c => if c.id = op.editTarget then { c with message := op.message } else c)
      | _ => cs)
    []

/-! ## Identity registry -/

/-- An identity: a participant, with the metadata map used for
cross-source linking (Section 3). -/
structure Identity where
  id : String
  name : String := ""
  email : String := ""
  login : String := ""
  avatarUrl : String := ""
  metadata : List (String × String) := []
deriving DecidableEq, Repr

def Identity.GetMetadata (i : Identity) (key : String) : Option String :=
  (i.metadata.find? (fun kv => kv.1 = key)).map (fun kv => kv.2)

/-- The set of local identities. -/
structure Registry where
  identities : List Identity
deriving DecidableEq, Repr

/-- Modelled from the spec: `ResolveByMetadata(key, value)` — exact-match
lookup failing with NotFound if absent and AmbiguousMatch
(identity.ErrMultipleMatch) if more than one identity shares the
(key, value) pair (Section 4.2); the cache package function
`ResolveIdentityImmutableMetadata` is not among the given sources. -/
def Registry.resolveIdentityImmutableMetadata (r : Registry) (key value : String) :
    Except ImpErr Identity :=
  match r.identities.filter (fun i => i.GetMetadata key = some value) with
  | [] => .error .notFound
  | [i] => .ok i
  | _ => .error .multipleMatch

/-- Modelled from the spec: identity ids are content-addressed; a string
encoding of the creation data stands in for the hash. -/
def identityId (name email login : String) : String :=
  "i:" ++ name ++ ":" ++ email ++ ":" ++ login

/-- Modelled from the spec: `NewIdentityRaw` creates a new identity with
the dedup metadata attached atomically with creation (Section 4.2). -/
def Registry.newIdentityRaw (r : Registry) (name email login avatarUrl : String)
    (md : List (String × String)) : Registry × Identity :=
  let i : Identity :=
    { id := identityId name email login, name := name, email := email,
      login := login, avatarUrl := avatarUrl, metadata := md }
  ({ identities := r.identities ++ [i] }, i)

/-! ## Entity store -/

/-- The local repository as the importers see it: the identity registry
plus the list of bug entities. -/
structure Store where
  registry : Registry
  bugs : List BugState
deriving DecidableEq, Repr

/-- Modelled from the spec: `ResolveCreateByMetadata(key, value) → entity
| NotExist` (Section 4.3) — returns the bug whose creation operation
carries the metadata pair, or the distinguished bug.ErrBugNotExist; the
cache package function `ResolveBugCreateMetadata` is not among the given
sources. The bug is returned as its index in the store. -/
def Store.resolveBugCreateMetadata (s : Store) (key value : String) :
    Except ImpErr Nat :=
  match s.bugs.findIdx? (fun b =>
      (b.ops.head?.bind (fun op => op.GetMetadata key)) = some value) with
  | some i => .ok i
  | none => .error .bugNotExist

/-- Modelled from the spec: text cleanup is an out-of-scope external
collaborator (Section 1); modelled as the identity transformation that
never fails. -/
def textCleanup (s : String) : Except ImpErr String :=
  .ok s

/-- Cooperative cancellation: `ctx.Done()` is closed from remote item
index `k` on (a cancelled context stays cancelled). -/
def ctxDone (cancelledFrom : Option Nat) (idx : Nat) : Bool :=
  match cancelledFrom with
  | some k => k ≤ idx
  | none => false

/-! ## bug/snapshot.go -/

inductive Status where
  | open
  | closed
deriving DecidableEq, Repr

/-- Snapshot from bug/snapshot.go: the compiled form of the bug data
structure. The `Timeline` field is kept abstract as the list of timeline
item hashes. -/
structure Snapshot where
  id : String := ""
  Status : Status := .open
  Title : String := ""
  Comments : List Comment := []
  Labels : List String := []
  Author : Option Identity := none
  Actors : List Identity := []
  Participants : List Identity := []
  CreatedAtUnix : Int := 0
  Timeline : List String := []
  Operations : List Operation := []
deriving DecidableEq, Repr

def Snapshot.Id (snap : Snapshot) : String :=
  snap.id

/-- LastEditTime returns the time of the last operation, or
`time.Unix(0, 0)` (modelled as unix instant 0) when the operation list
is empty. -/
def Snapshot.LastEditTime (snap : Snapshot) : Int :=
  if snap.Operations.length = 0 then 0
  else ((snap.Operations.getLast?.map (fun op => op.unixTime)).getD 0)

/-- LastEditUnix returns the unix timestamp of the last operation, or 0
when the operation list is empty. -/
def Snapshot.LastEditUnix (snap : Snapshot) : Int :=
  if snap.Operations.length = 0 then 0
  else ((snap.Operations.getLast?.map (fun op => op.unixTime)).getD 0)

/-- GetCreateMetadata indexes `Operations[0]` without a guard; the Go
slice index panics on an empty slice, modelled by the outer `Option`
being `none` exactly when the snapshot has no operations. -/
def Snapshot.GetCreateMetadata (snap : Snapshot) (key : String) :
    Option (Option String) :=
  match snap.Operations.head? with
  | some op => some (op.GetMetadata key)
  | none => none

/-- addActor from bug/snapshot.go: append the operation author to the
actors list unless an actor with the same id is already present. -/
def Snapshot.addActor (snap : Snapshot) (actor : Identity) : Snapshot :=
  if snap.Actors.any (fun a => actor.id == a.id) then snap
  else { snap with Actors := snap.Actors ++ [actor] }

/-- addParticipant from bug/snapshot.go: append the operation author to
the participants list unless a participant with the same id is already
present. -/
def Snapshot.addParticipant (snap : Snapshot) (participant : Identity) : Snapshot :=
  if snap.Participants.any (fun p => participant.id == p.id) then snap
  else { snap with Participants := snap.Participants ++ [participant] }

/-- HasParticipant from bug/snapshot.go. -/
def Snapshot.HasParticipant (snap : Snapshot) (id : String) : Bool :=
  snap.Participants.any (fun p => p.id == id)

/-- HasAnyParticipant from bug/snapshot.go. -/
def Snapshot.HasAnyParticipant (snap : Snapshot) (ids : List String) : Bool :=
  if ids.length = 0 then false
  else ids.any (fun id => snap.HasParticipant id)

/-! ## bridge/gitlab/import.go -/

def keyOrigin : String := "origin"

def keyGitlabId : String := "gitlab-id"

def keyGitlabUrl : String := "gitlab-url"

def keyGitlabProject : String := "gitlab-project"

def keyGitlabLogin : String := "gitlab-login"

/-- Modelled from the spec: the `target` constant of the gitlab bridge
package (origin tag, Section 6); the file defining it is not among the
given sources. -/
def gitlabTarget : String := "gitlab"

/-- parseID from bridge/gitlab/import.go: `fmt.Sprintf("%d", id)`. -/
def parseID (id : Int) : String :=
  toString id

/-- GitLab user data as returned by `client.Users.GetUser`. -/
structure GitlabUser where
  name : String
  publicEmail : String
  username : String
  avatarUrl : String
deriving DecidableEq, Repr

/-- Note classification as produced by `GetNoteType`; that helper is not
among the given sources, so a note carries its classified type and body
directly. Every type the source folds into the same unsupported branch
(NOTE_UNKNOWN, NOTE_ASSIGNED, ... NOTE_UNLOCKED) is `unsupported`. -/
inductive NoteType where
  | closed
  | reopened
  | descriptionChanged
  | comment
  | titleChanged
  | unsupported
deriving DecidableEq, Repr

structure Note where
  id : Int
  authorId : Int
  createdAtUnix : Int
  updatedAtUnix : Int
  noteType : NoteType
  body : String
deriving DecidableEq, Repr

structure GitlabIssue where
  id : Int
  authorId : Int
  createdAtUnix : Int
  title : String
  description : String
  webUrl : String
deriving DecidableEq, Repr

structure GitlabLabelEvent where
  id : Int
  userId : Int
  createdAtUnix : Int
  action : String
  labelName : String
deriving DecidableEq, Repr

/-- One top-level remote item of a gitlab run, with the nested sequences
its iterator yields and the per-item terminal iterator error. -/
structure GitlabIssueData where
  issue : GitlabIssue
  notes : List Note
  labelEvents : List GitlabLabelEvent
  iterErr : Option String := none
deriving Repr

/-- ensurePerson from bridge/gitlab/import.go. The GitLab user fetch is
the external network call, passed as the oracle `fetchUser` (`none`
models a transport error). Emits a NewImportIdentity result when a new
identity is created. -/
def gitlabEnsurePerson (fetchUser : Int → Option GitlabUser) (repo : Registry)
    (id : Int) : List ImportResult × Except ImpErr (Registry × Identity) :=
  match repo.resolveIdentityImmutableMetadata keyGitlabId (toString id) with
  | .ok i => ([], .ok (repo, i))
  | .error e =>
    if e = .multipleMatch then ([], .error e)
    else
      match fetchUser id with
      | none => ([], .error (.other "user fetch failed"))
      | some user =>
        let (repo, i) := repo.newIdentityRaw user.name user.publicEmail
            user.username user.avatarUrl
            [(keyGitlabId, toString id), (keyGitlabLogin, user.username)]
        ([NewImportIdentity i.id], .ok (repo, i))

/-- ensureIssue from bridge/gitlab/import.go: resolve the bug by its
gitlab-url creation metadata; if present emit a Nothing result, else
create it and emit a Bug result. Returns the index of the bug in the
store. -/
def gitlabEnsureIssue (fetchUser : Int → Option GitlabUser) (projectId : String)
    (store : Store) (issue : GitlabIssue) :
    List ImportResult × Except ImpErr (Store × Nat) :=
  match gitlabEnsurePerson fetchUser store.registry issue.authorId with
  | (rs0, .error e) => (rs0, .error e)
  | (rs0, .ok (reg, author)) =>
    match store.resolveBugCreateMetadata keyGitlabUrl issue.webUrl with
    | .ok idx =>
      (rs0 ++ [NewImportNothing "" "bug already imported"],
        .ok ({ store with registry := reg }, idx))
    | .error e =>
      if e ≠ .bugNotExist then (rs0, .error e)
      else
        match textCleanup issue.description with
        | .error e2 => (rs0, .error e2)
        | .ok cleanText =>
          let b : BugState :=
            { ops := [mkOp .create author.id issue.createdAtUnix cleanText
                issue.title "" [] []
                [(keyOrigin, gitlabTarget), (keyGitlabId, parseID issue.id),
                 (keyGitlabUrl, issue.webUrl), (keyGitlabProject, projectId)]] }
          (rs0 ++ [NewImportBug b.id],
            .ok ({ registry := reg, bugs := store.bugs ++ [b] }, store.bugs.length))

/-- ensureNote from bridge/gitlab/import.go, translated branch by branch.
Noteworthy source behaviour kept as-is:
the NOTE_CLOSED, NOTE_REOPENED and NOTE_TITLE_CHANGED branches append
without any `ResolveOperationWithMetadata` idempotency lookup;
the NOTE_DESCRIPTION_CHANGED branch appends a comment edition but emits
`NewImportTitleEdition`; the NOTE_COMMENT branch returns `errResolve`
whenever it is non-nil, which includes `cache.ErrNoMatchingOp`, so its
`errResolve == cache.ErrNoMatchingOp` create branch is unreachable and
the fallthrough is the already-imported comparison path. The
`Comments[0]` index of the description-changed branch panics on a bug
with no comments, modelled by the crash outcome. -/
def gitlabEnsureNote (fetchUser : Int → Option GitlabUser) (repo : Registry)
    (issue : GitlabIssue) (b : BugState) (note : Note) :
    List ImportResult × Outcome (Registry × BugState) :=
  let id := parseID note.id
  match gitlabEnsurePerson fetchUser repo note.authorId with
  | (rs0, .error e) => (rs0, .err e)
  | (rs0, .ok (repo, author)) =>
    match note.noteType with
    | .closed =>
      let (b, op) := b.closeRaw author.id note.createdAtUnix [(keyGitlabId, id)]
      (rs0 ++ [NewImportStatusChange op.hash], .ok (repo, b))
    | .reopened =>
      let (b, op) := b.openRaw author.id note.createdAtUnix [(keyGitlabId, id)]
      (rs0 ++ [NewImportStatusChange op.hash], .ok (repo, b))
    | .descriptionChanged =>
      match (snapshotComments b.ops).head? with
      | none => (rs0, .crash "index out of range")
      | some firstComment =>
        if issue.description ≠ firstComment.message then
          let (b, op) := b.editCommentRaw author.id note.updatedAtUnix
              firstComment.id issue.description [(keyGitlabId, id)]
          (rs0 ++ [NewImportTitleEdition op.hash], .ok (repo, b))
        else (rs0, .ok (repo, b))
    | .comment =>
      match b.resolveOperationWithMetadata keyGitlabId id with
      | .error errResolve => (rs0, .err errResolve)
      | .ok hash =>
        match textCleanup note.body with
        | .error e2 => (rs0, .err e2)
        | .ok cleanText =>
          match (snapshotComments b.ops).find? (fun c => c.id == hash) with
          | none => (rs0, .err (.other "comment not found"))
          | some comment =>
            if comment.message ≠ cleanText then
              let (b, op) := b.editCommentRaw author.id note.updatedAtUnix
                  comment.id cleanText []
              (rs0 ++ [NewImportCommentEdition op.hash], .ok (repo, b))
            else (rs0, .ok (repo, b))
    | .titleChanged =>
      let (b, op) := b.setTitleRaw author.id note.createdAtUnix note.body
          [(keyGitlabId, id)]
      (rs0 ++ [NewImportTitleEdition op.hash], .ok (repo, b))
    | .unsupported =>
      (rs0 ++ [NewImportNothing "" "unsupported note type"], .ok (repo, b))

/-- ensureLabelEvent from bridge/gitlab/import.go: when the idempotency
lookup succeeds (`err` is nil) the guard `err != cache.ErrNoMatchingOp`
returns that nil error, skipping the event without emitting any result;
no result is emitted on a successful append either. -/
def gitlabEnsureLabelEvent (fetchUser : Int → Option GitlabUser) (repo : Registry)
    (b : BugState) (ev : GitlabLabelEvent) :
    List ImportResult × Outcome (Registry × BugState) :=
  match b.resolveOperationWithMetadata keyGitlabId (parseID ev.id) with
  | .ok _ => ([], .ok (repo, b))
  | .error e =>
    if e ≠ .noMatchingOp then ([], .err e)
    else
      match gitlabEnsurePerson fetchUser repo ev.userId with
      | (rs0, .error e2) => (rs0, .err e2)
      | (rs0, .ok (repo, author)) =>
        if ev.action = "add" then
          let (b, _) := b.forceChangeLabelsRaw author.id ev.createdAtUnix
              [ev.labelName] [] [(keyGitlabId, parseID ev.id)]
          (rs0, .ok (repo, b))
        else if ev.action = "remove" then
          let (b, _) := b.forceChangeLabelsRaw author.id ev.createdAtUnix
              [] [ev.labelName] [(keyGitlabId, parseID ev.id)]
          (rs0, .ok (repo, b))
        else (rs0, .err (.other "unexpected label event action"))

/-- Outcome of processing one top-level item in an ImportAll loop:
continue, stop after emitting a final error result, or stop on a runtime
panic without emitting anything. -/
inductive StepOut (α : Type) where
  | ok (a : α)
  | fail (r : ImportResult)
  | crash (msg : String)
deriving DecidableEq, Repr

/-- The note loop of gitlab ImportAll: each failing note aborts the run
with an error result wrapping the cause and carrying the note id. -/
def gitlabNotesLoop (fetchUser : Int → Option GitlabUser) (reg : Registry)
    (issue : GitlabIssue) (b : BugState) (notes : List Note) :
    List ImportResult × StepOut (Registry × BugState) :=
  match notes with
  | [] => ([], .ok (reg, b))
  | n :: rest =>
    match gitlabEnsureNote fetchUser reg issue b n with
    | (rs, .crash m) => (rs, .crash m)
    | (rs, .err e) =>
      (rs, .fail (NewImportError (some ("note creation: " ++ e.msg)) (toString n.id)))
    | (rs, .ok (reg, b)) =>
      let (rs2, out) := gitlabNotesLoop fetchUser reg issue b rest
      (rs ++ rs2, out)

/-- The label event loop of gitlab ImportAll. -/
def gitlabLabelEventsLoop (fetchUser : Int → Option GitlabUser) (reg : Registry)
    (b : BugState) (evs : List GitlabLabelEvent) :
    List ImportResult × StepOut (Registry × BugState) :=
  match evs with
  | [] => ([], .ok (reg, b))
  | ev :: rest =>
    match gitlabEnsureLabelEvent fetchUser reg b ev with
    | (rs, .crash m) => (rs, .crash m)
    | (rs, .err e) =>
      (rs, .fail (NewImportError (some ("label event creation: " ++ e.msg)) (toString ev.id)))
    | (rs, .ok (reg, b)) =>
      let (rs2, out) := gitlabLabelEventsLoop fetchUser reg b rest
      (rs ++ rs2, out)

/-- One iteration of the gitlab ImportAll loop body (the `default` arm of
the select): ensure the issue, process its notes and label events, check
the iterator error, commit. When ensureIssue fails the source builds the
error result from `b.Id()` with `b` nil, a nil dereference that kills the
goroutine before anything is sent: a crash outcome. `CommitAsNeeded` is
the storage flush of the cache package (not among the given sources),
modelled from the spec as always succeeding. -/
def gitlabProcessIssue (fetchUser : Int → Option GitlabUser) (projectId : String)
    (store : Store) (d : GitlabIssueData) : List ImportResult × StepOut Store :=
  match gitlabEnsureIssue fetchUser projectId store d.issue with
  | (rs0, .error _) => (rs0, .crash "nil pointer dereference")
  | (rs0, .ok (store1, idx)) =>
    match store1.bugs[idx]? with
    | none => (rs0, .crash "index out of range")
    | some b =>
      match gitlabNotesLoop fetchUser store1.registry d.issue b d.notes with
      | (rs1, .crash m) => (rs0 ++ rs1, .crash m)
      | (rs1, .fail r) => (rs0 ++ rs1, .fail r)
      | (rs1, .ok (reg, b)) =>
        match gitlabLabelEventsLoop fetchUser reg b d.labelEvents with
        | (rs2, .crash m) => (rs0 ++ rs1 ++ rs2, .crash m)
        | (rs2, .fail r) => (rs0 ++ rs1 ++ rs2, .fail r)
        | (rs2, .ok (reg, b)) =>
          match d.iterErr with
          | some m =>
            (rs0 ++ rs1 ++ rs2,
              .fail (NewImportError (some ("import error: " ++ m)) ""))
          | none =>
            (rs0 ++ rs1 ++ rs2,
              .ok { registry := reg, bugs := store1.bugs.set idx b })

/-- The goroutine loop of gitlab ImportAll: once per top-level issue the
select observes cancellation, emitting a final error result carrying
`ctx.Err()`; otherwise the issue is processed and any failure appends a
final error result and stops. -/
def gitlabRunLoop (fetchUser : Int → Option GitlabUser) (projectId : String)
    (cancelledFrom : Option Nat) (idx : Nat) (store : Store)
    (issues : List GitlabIssueData) : Store × List ImportResult :=
  match issues with
  | [] => (store, [])
  | d :: rest =>
    if ctxDone cancelledFrom idx then
      (store, [NewImportError (some ImpErr.canceled.msg) ""])
    else
      match gitlabProcessIssue fetchUser projectId store d with
      | (rs, .crash _) => (store, rs)
      | (rs, .fail r) => (store, rs ++ [r])
      | (rs, .ok store1) =>
        let (store2, rs2) := gitlabRunLoop fetchUser projectId cancelledFrom
            (idx + 1) store1 rest
        (store2, rs ++ rs2)

/-- ImportAll from bridge/gitlab/import.go: the full run over the
configured issues, returning the final store and the ordered result
stream contents. -/
def gitlabImportAll (fetchUser : Int → Option GitlabUser) (projectId : String)
    (store : Store) (issues : List GitlabIssueData) (cancelledFrom : Option Nat) :
    Store × List ImportResult :=
  gitlabRunLoop fetchUser projectId cancelledFrom 0 store issues

/-! ## bridge/github/import.go -/

def keyGithubId : String := "github-id"

def keyGithubUrl : String := "github-url"

def keyGithubLogin : String := "github-login"

/-- Modelled from the spec: the `target` constant of the github bridge
package (origin tag, Section 6); the file defining it is not among the
given sources. -/
def githubTarget : String := "github"

/-- GraphQL actor data; the `Typename` switch of ensurePerson reads
name and email from the User or Organization variant. A nil `*actor` is
modelled by `Option GhActor` at use sites. -/
structure GhActor where
  login : String
  avatarUrl : String
  typename : String := "User"
  userName : Option String := none
  userEmail : String := ""
  orgName : Option String := none
  orgEmail : Option String := none
deriving DecidableEq, Repr

/-- The ghost user query result. -/
structure GhUser where
  login : String
  name : Option String := none
  avatarUrl : String := ""
deriving DecidableEq, Repr

/-- A userContentEdit node. `diff = none` models a nil `*githubv4.String`
Diff pointer. -/
structure GhEdit where
  id : String
  createdAtUnix : Int
  editor : Option GhActor
  deletedAtUnix : Option Int := none
  diff : Option String
deriving DecidableEq, Repr

/-- An IssueComment timeline node. -/
structure GhComment where
  id : String
  url : String
  body : String
  createdAtUnix : Int
  author : Option GhActor
deriving DecidableEq, Repr

/-- One timeline item, a tagged union keyed by `__typename`. -/
inductive GhTimelineItem where
  | issueComment (item : GhComment) (edits : List GhEdit)
  | labeledEvent (id : String) (actor : Option GhActor) (createdAtUnix : Int) (label : String)
  | unlabeledEvent (id : String) (actor : Option GhActor) (createdAtUnix : Int) (label : String)
  | closedEvent (id : String) (actor : Option GhActor) (createdAtUnix : Int)
  | reopenedEvent (id : String) (actor : Option GhActor) (createdAtUnix : Int)
  | renamedTitleEvent (id : String) (actor : Option GhActor) (createdAtUnix : Int)
      (currentTitle : String)
  | unknownItem (typename : String)
deriving Repr

def GhTimelineItem.typename : GhTimelineItem → String
  | .issueComment _ _ => "IssueComment"
  | .labeledEvent _ _ _ _ => "LabeledEvent"
  | .unlabeledEvent _ _ _ _ => "UnlabeledEvent"
  | .closedEvent _ _ _ => "ClosedEvent"
  | .reopenedEvent _ _ _ => "ReopenedEvent"
  | .renamedTitleEvent _ _ _ _ => "RenamedTitleEvent"
  | .unknownItem t => t

/-- A top-level github issue with the nested edit sequence its iterator
yields. -/
structure GhIssue where
  id : String
  url : String
  title : String
  body : String
  createdAtUnix : Int
  author : Option GhActor
  edits : List GhEdit
deriving Repr

/-- getGhost from bridge/github/import.go: resolve the "ghost" login or
fetch it (oracle `ghost`; `none` models a failed GraphQL query) and
create the identity; no result is emitted on this path. -/
def githubGetGhost (ghost : Option GhUser) (repo : Registry) :
    List ImportResult × Except ImpErr (Registry × Identity) :=
  match repo.resolveIdentityImmutableMetadata keyGithubLogin "ghost" with
  | .ok i => ([], .ok (repo, i))
  | .error e =>
    if e = .multipleMatch then ([], .error e)
    else
      match ghost with
      | none => ([], .error (.other "ghost query failed"))
      | some u =>
        let name := (u.name).getD ""
        let (repo, i) := repo.newIdentityRaw name "" u.login u.avatarUrl
            [(keyGithubLogin, u.login)]
        ([], .ok (repo, i))

/-- ensurePerson from bridge/github/import.go: nil actors resolve to the
ghost user; otherwise resolve by github-login metadata, returning
identity.ErrMultipleMatch as a hard error, and create the identity from
the actor data (Typename switch) when not found. -/
def githubEnsurePerson (ghost : Option GhUser) (repo : Registry)
    (actor : Option GhActor) : List ImportResult × Except ImpErr (Registry × Identity) :=
  match actor with
  | none => githubGetGhost ghost repo
  | some actor =>
    match repo.resolveIdentityImmutableMetadata keyGithubLogin actor.login with
    | .ok i => ([], .ok (repo, i))
    | .error e =>
      if e = .multipleMatch then ([], .error e)
      else
        let name :=
          if actor.typename = "User" then (actor.userName).getD ""
          else if actor.typename = "Organization" then (actor.orgName).getD ""
          else ""
        let email :=
          if actor.typename = "User" then actor.userEmail
          else if actor.typename = "Organization" then (actor.orgEmail).getD ""
          else ""
        let (repo, i) := repo.newIdentityRaw name email actor.login actor.avatarUrl
            [(keyGithubLogin, actor.login)]
        ([NewImportIdentity i.id], .ok (repo, i))

/-- ensureCommentEdit from bridge/github/import.go: idempotency lookup on
the edit id, Nothing when already imported, Nothing for deletions, else
a comment edition referencing the target hash. Dereferencing a nil Diff
pointer is a crash. -/
def githubEnsureCommentEdit (ghost : Option GhUser) (repo : Registry) (b : BugState)
    (target : String) (edit : GhEdit) :
    List ImportResult × Outcome (Registry × BugState) :=
  match b.resolveOperationWithMetadata keyGithubId edit.id with
  | .ok _ => ([NewImportNothing "" "edition already imported"], .ok (repo, b))
  | .error e =>
    if e ≠ .noMatchingOp then ([], .err e)
    else
      match githubEnsurePerson ghost repo edit.editor with
      | (rs0, .error e2) => (rs0, .err e2)
      | (rs0, .ok (repo, editor)) =>
        match edit.deletedAtUnix with
        | some _ =>
          (rs0 ++ [NewImportNothing "" "comment deletion is not supported yet"],
            .ok (repo, b))
        | none =>
          match edit.diff with
          | none => (rs0, .crash "nil pointer dereference")
          | some diff =>
            match textCleanup diff with
            | .error e2 => (rs0, .err e2)
            | .ok cleanText =>
              let (b, op) := b.editCommentRaw editor.id edit.createdAtUnix target
                  cleanText [(keyGithubId, edit.id)]
              (rs0 ++ [NewImportCommentEdition op.hash], .ok (repo, b))

/-- The `for i, edit := range edits` loop of ensureTimelineComment: the
first edit with a known target is the comment creation itself (Nothing);
with an empty target the comment is created from the edit diff; later
edits go through ensureCommentEdit. -/
def githubCommentEditsLoop (ghost : Option GhUser) (repo : Registry) (b : BugState)
    (item : GhComment) (target : String) (i : Nat) (edits : List GhEdit) :
    List ImportResult × Outcome (Registry × BugState) :=
  match edits with
  | [] => ([], .ok (repo, b))
  | edit :: rest =>
    if i = 0 ∧ target ≠ "" then
      let (rs, out) := githubCommentEditsLoop ghost repo b item target (i + 1) rest
      ([NewImportNothing "" "comment already imported"] ++ rs, out)
    else
      match githubEnsurePerson ghost repo edit.editor with
      | (rs0, .error e) => (rs0, .err e)
      | (rs0, .ok (repo, editor)) =>
        if target = "" then
          match edit.diff with
          | none => (rs0, .crash "nil pointer dereference")
          | some diff =>
            match textCleanup diff with
            | .error e => (rs0, .err e)
            | .ok cleanText =>
              let (b, op) := b.addCommentRaw editor.id edit.createdAtUnix cleanText
                  [(keyGithubId, item.id), (keyGithubUrl, item.url)]
              let (rs1, out) := githubCommentEditsLoop ghost repo b item op.hash
                  (i + 1) rest
              (rs0 ++ [NewImportComment op.hash] ++ rs1, out)
        else
          match githubEnsureCommentEdit ghost repo b target edit with
          | (rs1, .err e) => (rs0 ++ rs1, .err e)
          | (rs1, .crash m) => (rs0 ++ rs1, .crash m)
          | (rs1, .ok (repo, b)) =>
            let (rs2, out) := githubCommentEditsLoop ghost repo b item target
                (i + 1) rest
            (rs0 ++ rs1 ++ rs2, out)

/-- ensureTimelineComment from bridge/github/import.go. When the comment
is already imported and it has no edits the source emits the
"comment already imported" Nothing result twice (once at the resolution,
once in the empty-edits else branch), kept as-is. -/
def githubEnsureTimelineComment (ghost : Option GhUser) (repo : Registry)
    (b : BugState) (item : GhComment) (edits : List GhEdit) :
    List ImportResult × Outcome (Registry × BugState) :=
  match githubEnsurePerson ghost repo item.author with
  | (rs0, .error e) => (rs0, .err e)
  | (rs0, .ok (repo, author)) =>
    match b.resolveOperationWithMetadata keyGithubId item.id with
    | .error e =>
      if e ≠ .noMatchingOp then (rs0, .err e)
      else
        if edits.length = 0 then
          match textCleanup item.body with
          | .error e2 => (rs0, .err e2)
          | .ok cleanText =>
            let (b, op) := b.addCommentRaw author.id item.createdAtUnix cleanText
                [(keyGithubId, item.id), (keyGithubUrl, item.url)]
            (rs0 ++ [NewImportComment op.hash], .ok (repo, b))
        else
          let (rs2, out) := githubCommentEditsLoop ghost repo b item "" 0 edits
          (rs0 ++ rs2, out)
    | .ok target =>
      if edits.length = 0 then
        (rs0 ++ [NewImportNothing "" "comment already imported",
                 NewImportNothing "" "comment already imported"], .ok (repo, b))
      else
        let (rs2, out) := githubCommentEditsLoop ghost repo b item target 0 edits
        (rs0 ++ [NewImportNothing "" "comment already imported"] ++ rs2, out)

/-- ensureTimelineItem from bridge/github/import.go, translated case by
case. Noteworthy source behaviour kept as-is: in the ClosedEvent,
ReopenedEvent and RenamedTitleEvent cases the `err !=
cache.ErrNoMatchingOp` guard comes first, so a successful idempotency
lookup (nil error) returns nil from that guard and the following
`err == nil` branch that would emit the Nothing result is unreachable;
the LabeledEvent and UnlabeledEvent cases have the checks in the other
order and do emit Nothing. -/
def githubEnsureTimelineItem (ghost : Option GhUser) (repo : Registry) (b : BugState)
    (item : GhTimelineItem) : List ImportResult × Outcome (Registry × BugState) :=
  match item with
  | .issueComment c edits =>
    match githubEnsureTimelineComment ghost repo b c edits with
    | (rs, .err e) => (rs, .err (.other ("timeline comment creation: " ++ e.msg)))
    | (rs, .crash m) => (rs, .crash m)
    | (rs, .ok s) => (rs, .ok s)
  | .labeledEvent id actor createdAt label =>
    match b.resolveOperationWithMetadata keyGithubId id with
    | .ok _ =>
      ([NewImportNothing "" ("operation already imported: " ++ item.typename)],
        .ok (repo, b))
    | .error e =>
      if e ≠ .noMatchingOp then ([], .err e)
      else
        match githubEnsurePerson ghost repo actor with
        | (rs0, .error e2) => (rs0, .err e2)
        | (rs0, .ok (repo, author)) =>
          let (b, op) := b.forceChangeLabelsRaw author.id createdAt [label] []
              [(keyGithubId, id)]
          (rs0 ++ [NewImportLabelChange op.hash], .ok (repo, b))
  | .unlabeledEvent id actor createdAt label =>
    match b.resolveOperationWithMetadata keyGithubId id with
    | .ok _ =>
      ([NewImportNothing "" ("operation already imported: " ++ item.typename)],
        .ok (repo, b))
    | .error e =>
      if e ≠ .noMatchingOp then ([], .err e)
      else
        match githubEnsurePerson ghost repo actor with
        | (rs0, .error e2) => (rs0, .err e2)
        | (rs0, .ok (repo, author)) =>
          let (b, op) := b.forceChangeLabelsRaw author.id createdAt [] [label]
              [(keyGithubId, id)]
          (rs0 ++ [NewImportLabelChange op.hash], .ok (repo, b))
  | .closedEvent id actor createdAt =>
    match b.resolveOperationWithMetadata keyGithubId id with
    | .ok _ => ([], .ok (repo, b))
    | .error e =>
      if e ≠ .noMatchingOp then ([], .err e)
      else
        match githubEnsurePerson ghost repo actor with
        | (rs0, .error e2) => (rs0, .err e2)
        | (rs0, .ok (repo, author)) =>
          let (b, op) := b.closeRaw author.id createdAt [(keyGithubId, id)]
          (rs0 ++ [NewImportStatusChange op.hash], .ok (repo, b))
  | .reopenedEvent id actor createdAt =>
    match b.resolveOperationWithMetadata keyGithubId id with
    | .ok _ => ([], .ok (repo, b))
    | .error e =>
      if e ≠ .noMatchingOp then ([], .err e)
      else
        match githubEnsurePerson ghost repo actor with
        | (rs0, .error e2) => (rs0, .err e2)
        | (rs0, .ok (repo, author)) =>
          let (b, op) := b.openRaw author.id createdAt [(keyGithubId, id)]
          (rs0 ++ [NewImportStatusChange op.hash], .ok (repo, b))
  | .renamedTitleEvent id actor createdAt currentTitle =>
    match b.resolveOperationWithMetadata keyGithubId id with
    | .ok _ => ([], .ok (repo, b))
    | .error e =>
      if e ≠ .noMatchingOp then ([], .err e)
      else
        match githubEnsurePerson ghost repo actor with
        | (rs0, .error e2) => (rs0, .err e2)
        | (rs0, .ok (repo, author)) =>
          let (b, op) := b.setTitleRaw author.id createdAt currentTitle
              [(keyGithubId, id)]
          (rs0 ++ [NewImportTitleEdition op.hash], .ok (repo, b))
  | .unknownItem t =>
    ([NewImportNothing "" ("ignoring timeline type: " ++ t)], .ok (repo, b))

/-- The `for i, edit := range issueEdits` loop of github ensureIssue:
the first edit is the issue creation when the bug exists; the bug is
created from the first legit edit otherwise; later edits resolve the
creation operation by url metadata (any resolution error, including
NoMatchingOp, is returned) and go through ensureCommentEdit, after which
the source emits a CommentEdition result carrying the resolved creation
hash. -/
def githubIssueEditsLoop (ghost : Option GhUser) (repo : Registry)
    (issue : GhIssue) (authorId : String) (bOpt : Option BugState) (i : Nat)
    (edits : List GhEdit) : List ImportResult × Outcome (Registry × Option BugState) :=
  match edits with
  | [] => ([], .ok (repo, bOpt))
  | edit :: rest =>
    if i = 0 ∧ bOpt.isSome then
      let (rs, out) := githubIssueEditsLoop ghost repo issue authorId bOpt (i + 1) rest
      ([NewImportNothing "" "bug already imported"] ++ rs, out)
    else
      match edit.diff with
      | none => ([], .crash "nil pointer dereference")
      | some diff =>
        match textCleanup diff with
        | .error e => ([], .err e)
        | .ok cleanText =>
          match bOpt with
          | none =>
            let b : BugState :=
              { ops := [mkOp .create authorId issue.createdAtUnix cleanText
                  issue.title "" [] []
                  [(keyOrigin, githubTarget), (keyGithubId, issue.id),
                   (keyGithubUrl, issue.url)]] }
            let (rs, out) := githubIssueEditsLoop ghost repo issue authorId (some b)
                (i + 1) rest
            ([NewImportBug b.id] ++ rs, out)
          | some b =>
            match b.resolveOperationWithMetadata keyGithubUrl issue.url with
            | .error e => ([], .err e)
            | .ok target =>
              match githubEnsureCommentEdit ghost repo b target edit with
              | (rs1, .err e) => (rs1, .err e)
              | (rs1, .crash m) => (rs1, .crash m)
              | (rs1, .ok (repo, b)) =>
                let (rs2, out) := githubIssueEditsLoop ghost repo issue authorId
                    (some b) (i + 1) rest
                (rs1 ++ [NewImportCommentEdition target] ++ rs2, out)

/-- ensureIssue from bridge/github/import.go: resolve the bug by its
github-url creation metadata, then either create it directly (no edits)
or walk the issue edits. Returns the updated store and the index of the
bug, when one exists after the walk. -/
def githubEnsureIssue (ghost : Option GhUser) (store : Store) (issue : GhIssue) :
    List ImportResult × Outcome (Store × Option Nat) :=
  match githubEnsurePerson ghost store.registry issue.author with
  | (rs0, .error e) => (rs0, .err e)
  | (rs0, .ok (reg, author)) =>
    match store.resolveBugCreateMetadata keyGithubUrl issue.url with
    | .ok idx =>
      match store.bugs[idx]? with
      | none => (rs0, .crash "index out of range")
      | some b0 =>
        if issue.edits.length = 0 then
          (rs0 ++ [NewImportNothing "" "bug already imported"],
            .ok ({ store with registry := reg }, some idx))
        else
          match githubIssueEditsLoop ghost reg issue author.id (some b0) 0 issue.edits with
          | (rs1, .err e) => (rs0 ++ rs1, .err e)
          | (rs1, .crash m) => (rs0 ++ rs1, .crash m)
          | (rs1, .ok (reg, bOpt)) =>
            match bOpt with
            | some b =>
              (rs0 ++ rs1, .ok ({ registry := reg, bugs := store.bugs.set idx b }, some idx))
            | none => (rs0 ++ rs1, .ok ({ store with registry := reg }, none))
    | .error e =>
      if e ≠ .bugNotExist then (rs0, .err e)
      else
        if issue.edits.length = 0 then
          match textCleanup issue.body with
          | .error e2 => (rs0, .err e2)
          | .ok cleanText =>
            let b : BugState :=
              { ops := [mkOp .create author.id issue.createdAtUnix cleanText
                  issue.title "" [] []
                  [(keyOrigin, githubTarget), (keyGithubId, issue.id),
                   (keyGithubUrl, issue.url)]] }
            (rs0 ++ [NewImportBug b.id],
              .ok ({ registry := reg, bugs := store.bugs ++ [b] },
                some store.bugs.length))
        else
          match githubIssueEditsLoop ghost reg issue author.id none 0 issue.edits with
          | (rs1, .err e) => (rs0 ++ rs1, .err e)
          | (rs1, .crash m) => (rs0 ++ rs1, .crash m)
          | (rs1, .ok (reg, bOpt)) =>
            match bOpt with
            | some b =>
              (rs0 ++ rs1, .ok ({ registry := reg, bugs := store.bugs ++ [b] },
                some store.bugs.length))
            | none => (rs0 ++ rs1, .ok ({ store with registry := reg }, none))

/-- A top-level github issue with its timeline items. -/
structure GithubIssueData where
  issue : GhIssue
  timeline : List GhTimelineItem
deriving Repr

/-- The timeline item loop of github ImportAll: a failing item aborts the
run with an error result wrapping the cause. -/
def githubTimelineLoop (ghost : Option GhUser) (reg : Registry) (b : BugState)
    (items : List GhTimelineItem) : List ImportResult × StepOut (Registry × BugState) :=
  match items with
  | [] => ([], .ok (reg, b))
  | item :: rest =>
    match githubEnsureTimelineItem ghost reg b item with
    | (rs, .crash m) => (rs, .crash m)
    | (rs, .err e) =>
      (rs, .fail (NewImportError (some ("timeline item creation: " ++ e.msg)) ""))
    | (rs, .ok (reg, b)) =>
      let (rs2, out) := githubTimelineLoop ghost reg b rest
      (rs ++ rs2, out)

/-- One iteration of the github ImportAll loop body: ensure the issue,
walk its timeline, commit. An ensureIssue error is emitted with an empty
context id (no nil dereference here, unlike the gitlab driver).
`CommitAsNeeded` is modelled from the spec as always succeeding. When
ensureIssue leaves no bug the timeline loop would operate on a nil bug;
that cannot happen for a non-empty timeline without crashing, modelled
as a crash. -/
def githubProcessIssue (ghost : Option GhUser) (store : Store) (d : GithubIssueData) :
    List ImportResult × StepOut Store :=
  match githubEnsureIssue ghost store d.issue with
  | (rs0, .err e) =>
    (rs0, .fail (NewImportError (some ("issue creation: " ++ e.msg)) ""))
  | (rs0, .crash m) => (rs0, .crash m)
  | (rs0, .ok (store1, bOpt)) =>
    match bOpt with
    | none =>
      match d.timeline with
      | [] => (rs0, .ok store1)
      | _ => (rs0, .crash "nil pointer dereference")
    | some idx =>
      match store1.bugs[idx]? with
      | none => (rs0, .crash "index out of range")
      | some b =>
        match githubTimelineLoop ghost store1.registry b d.timeline with
        | (rs1, .crash m) => (rs0 ++ rs1, .crash m)
        | (rs1, .fail r) => (rs0 ++ rs1, .fail r)
        | (rs1, .ok (reg, b)) =>
          (rs0 ++ rs1, .ok { registry := reg, bugs := store1.bugs.set idx b })

/-- The goroutine loop of github ImportAll: cancellation is observed
once per issue and emits a final error result carrying `ctx.Err()`; the
iterator error is checked after the loop and also emits a final error
result. -/
def githubRunLoop (ghost : Option GhUser) (cancelledFrom : Option Nat)
    (iterErr : Option String) (idx : Nat) (store : Store)
    (issues : List GithubIssueData) : Store × List ImportResult :=
  match issues with
  | [] =>
    match iterErr with
    | some m => (store, [NewImportError (some ("bug commit: " ++ m)) ""])
    | none => (store, [])
  | d :: rest =>
    if ctxDone cancelledFrom idx then
      (store, [NewImportError (some ImpErr.canceled.msg) ""])
    else
      match githubProcessIssue ghost store d with
      | (rs, .crash _) => (store, rs)
      | (rs, .fail r) => (store, rs ++ [r])
      | (rs, .ok store1) =>
        let (store2, rs2) := githubRunLoop ghost cancelledFrom iterErr (idx + 1)
            store1 rest
        (store2, rs ++ rs2)

/-- ImportAll from bridge/github/import.go. -/
def githubImportAll (ghost : Option GhUser) (store : Store)
    (issues : List GithubIssueData) (iterErr : Option String)
    (cancelledFrom : Option Nat) : Store × List ImportResult :=
  githubRunLoop ghost cancelledFrom iterErr 0 store issues

/-! ## bridge/launchpad/import.go -/

def keyLaunchpadId : String := "launchpad-id"

def keyLaunchpadLogin : String := "launchpad-login"

structure LPPerson where
  login : String
  name : String
deriving DecidableEq, Repr

/-- A launchpad message; `createdAtUnix` models the already-parsed
RFC3339 timestamp (the source discards the parse error). -/
structure LPMessage where
  id : String
  owner : LPPerson
  createdAtUnix : Int
  content : String
deriving DecidableEq, Repr

structure LPBug where
  id : Int
  owner : LPPerson
  createdAtUnix : Int
  title : String
  description : String
  messages : List LPMessage
deriving Repr

/-- ensurePerson from bridge/launchpad/import.go: resolve by
launchpad-login metadata; identity.ErrMultipleMatch is returned as a
hard error; otherwise the identity is created (no result emission in
this importer). -/
def launchpadEnsurePerson (repo : Registry) (owner : LPPerson) :
    Except ImpErr (Registry × Identity) :=
  match repo.resolveIdentityImmutableMetadata keyLaunchpadLogin owner.login with
  | .ok i => .ok (repo, i)
  | .error e =>
    if e = .multipleMatch then .error e
    else
      let (repo, i) := repo.newIdentityRaw owner.name "" owner.login ""
          [(keyLaunchpadLogin, owner.login)]
      .ok (repo, i)

/-- The message loop of launchpad ImportAll (messages after the first,
which duplicates the description): skip messages already imported, add
the new ones as comments. -/
def launchpadMessagesLoop (reg : Registry) (lpBugId : String) (b : BugState)
    (msgs : List LPMessage) : List ImportResult × StepOut (Registry × BugState) :=
  match msgs with
  | [] => ([], .ok (reg, b))
  | m :: rest =>
    match b.resolveOperationWithMetadata keyLaunchpadId m.id with
    | .ok _ => launchpadMessagesLoop reg lpBugId b rest
    | .error e =>
      if e ≠ .noMatchingOp then
        ([], .fail (NewImportError (some e.msg)
          ("failed to fetch comments for bug #" ++ lpBugId)))
      else
        match launchpadEnsurePerson reg m.owner with
        | .error e2 => ([], .fail (NewImportError (some e2.msg) ""))
        | .ok (reg, owner) =>
          let (b, op) := b.addCommentRaw owner.id m.createdAtUnix m.content
              [(keyLaunchpadId, m.id)]
          match launchpadMessagesLoop reg lpBugId b rest with
          | (rs, out) => ([NewImportComment op.hash] ++ rs, out)

/-- One iteration of the launchpad ImportAll loop body, translated with
the Go scoping of its source kept as-is: `owner, err :=
li.ensurePerson(...)` declares a new `err` inside the select case block,
shadowing the `err` that holds the ResolveBugCreateMetadata outcome, so
the following `if err == bug.ErrBugNotExist` tests the (nil) ensurePerson
error and the bug-creation branch is unreachable — control always takes
the else (`TODO: Update bug`) branch and `b` stays nil for an unknown
bug. With zero messages the source then emits `NewImportError(err, …)`
where that shadowed `err` is nil. With messages and a nil `b`, the
method call on the nil bug is a nil dereference (crash). `CommitAsNeeded`
is modelled from the spec as always succeeding. -/
def launchpadProcessBug (store : Store) (lpBug : LPBug) :
    List ImportResult × StepOut Store :=
  let lpBugId := toString lpBug.id
  let resolved := store.resolveBugCreateMetadata keyLaunchpadId lpBugId
  match resolved with
  | .error e =>
    if e ≠ .bugNotExist then
      ([], .fail (NewImportError (some e.msg) lpBugId))
    else
      match launchpadEnsurePerson store.registry lpBug.owner with
      | .error e2 => ([], .fail (NewImportError (some e2.msg) lpBugId))
      | .ok (_, _) =>
        if lpBug.messages.length = 0 then
          ([], .fail (NewImportError none
            ("failed to fetch comments for bug #" ++ lpBugId)))
        else
          ([], .crash "nil pointer dereference")
  | .ok idx =>
    match launchpadEnsurePerson store.registry lpBug.owner with
    | .error e2 => ([], .fail (NewImportError (some e2.msg) lpBugId))
    | .ok (reg, _) =>
      if lpBug.messages.length = 0 then
        ([], .fail (NewImportError none
          ("failed to fetch comments for bug #" ++ lpBugId)))
      else
        match store.bugs[idx]? with
        | none => ([], .crash "index out of range")
        | some b =>
          match launchpadMessagesLoop reg lpBugId b lpBug.messages.tail with
          | (rs, .crash m) => (rs, .crash m)
          | (rs, .fail r) => (rs, .fail r)
          | (rs, .ok (reg, b)) =>
            (rs, .ok { registry := reg, bugs := store.bugs.set idx b })

/-- The goroutine loop of launchpad ImportAll: on observing cancellation
the select case returns immediately, emitting nothing (and the channel
is never closed by this importer). -/
def launchpadRunLoop (cancelledFrom : Option Nat) (idx : Nat) (store : Store)
    (lpBugs : List LPBug) : Store × List ImportResult :=
  match lpBugs with
  | [] => (store, [])
  | lpBug :: rest =>
    if ctxDone cancelledFrom idx then (store, [])
    else
      match launchpadProcessBug store lpBug with
      | (rs, .crash _) => (store, rs)
      | (rs, .fail r) => (store, rs ++ [r])
      | (rs, .ok store1) =>
        let (store2, rs2) := launchpadRunLoop cancelledFrom (idx + 1) store1 rest
        (store2, rs ++ rs2)

/-- ImportAll from bridge/launchpad/import.go. -/
def launchpadImportAll (store : Store) (lpBugs : List LPBug)
    (cancelledFrom : Option Nat) : Store × List ImportResult :=
  launchpadRunLoop cancelledFrom 0 store lpBugs

/-- One call of the snapshot accumulation interface used during replay. -/
inductive SnapCall where
  | actor (i : Identity)
  | participant (i : Identity)
deriving Repr

def Snapshot.applyCall (snap : Snapshot) : SnapCall → Snapshot
  | .actor i => snap.addActor i
  | .participant i => snap.addParticipant i

def Snapshot.runCalls (snap : Snapshot) (cs : List SnapCall) : Snapshot :=
  cs.foldl Snapshot.applyCall snap

/-! ## Proof infrastructure -/

/-- A result list is clean when none of its members is an error result. -/
def allOk (l : List ImportResult) : Bool :=
  l.all (fun r => r.err.isNone)

@[simp] theorem allOk_nil : allOk [] = true := rfl

@[simp] theorem allOk_append (l1 l2 : List ImportResult) :
    allOk (l1 ++ l2) = (allOk l1 && allOk l2) :=
  List.all_append

@[simp] theorem allOk_cons (r : ImportResult) (l : List ImportResult) :
    allOk (r :: l) = (r.err.isNone && allOk l) :=
  rfl

@[simp] theorem NewImportNothing_err (id reason : String) :
    (NewImportNothing id reason).err = none :=
  rfl

@[simp] theorem NewImportBug_err (id : String) : (NewImportBug id).err = none :=
  rfl

@[simp] theorem NewImportComment_err (id : String) : (NewImportComment id).err = none :=
  rfl

@[simp] theorem NewImportCommentEdition_err (id : String) :
    (NewImportCommentEdition id).err = none :=
  rfl

@[simp] theorem NewImportStatusChange_err (id : String) :
    (NewImportStatusChange id).err = none :=
  rfl

@[simp] theorem NewImportLabelChange_err (id : String) :
    (NewImportLabelChange id).err = none :=
  rfl

@[simp] theorem NewImportTitleEdition_err (id : String) :
    (NewImportTitleEdition id).err = none :=
  rfl

@[simp] theorem NewImportIdentity_err (id : String) :
    (NewImportIdentity id).err = none :=
  rfl

theorem allOk_dropLast (l : List ImportResult) (h : allOk l = true) :
    allOk l.dropLast = true := by
  simp only [allOk, List.all_eq_true] at h ⊢
  exact fun r hr => h r ((List.dropLast_sublist l).subset hr)

theorem allOk_dropLast_append (l1 l2 : List ImportResult) (h1 : allOk l1 = true)
    (h2 : allOk l2.dropLast = true) : allOk (l1 ++ l2).dropLast = true := by
  cases l2 with
  | nil =>
    rw [List.append_nil]
    exact allOk_dropLast l1 h1
  | cons a t =>
    rw [List.dropLast_append_of_ne_nil _ (by simp)]
    simp [h1, h2]

theorem allOk_dropLast_concat (l : List ImportResult) (r : ImportResult)
    (h : allOk l = true) : allOk (l ++ [r]).dropLast = true := by
  rw [List.dropLast_concat]
  exact h

/-! ## Claim C9: GetCreateMetadata is unguarded on the first operation -/

/-- C9: for every snapshot with a non-empty operation list,
GetCreateMetadata returns the metadata lookup of the first (creation)
operation; on an empty snapshot the unguarded `Operations[0]` index makes
the call partial (no value), while LastEditTime and LastEditUnix guard
the empty case and return the zero instant. -/
theorem C9_getCreateMetadata (snap : Snapshot) (key : String)
    (h : snap.Operations ≠ []) :
    snap.GetCreateMetadata key = some ((snap.Operations.head h).GetMetadata key)
      ∧ (∀ s : Snapshot, s.Operations = [] → s.GetCreateMetadata key = none)
      ∧ (∀ s : Snapshot, s.Operations = [] → s.LastEditUnix = 0 ∧ s.LastEditTime = 0) := by
  refine ⟨?_, ?_, ?_⟩
  · unfold Snapshot.GetCreateMetadata
    rw [List.head?_eq_head h]
  · intro s hs
    unfold Snapshot.GetCreateMetadata
    rw [hs]
    rfl
  · intro s hs
    unfold Snapshot.LastEditUnix Snapshot.LastEditTime
    rw [hs]
    exact ⟨rfl, rfl⟩

/-- Witness for C9 at a concrete one-operation snapshot. -/
theorem C9_getCreateMetadata_witness :
    ({ Operations := [mkOp .create "a" 1 "m" "t" "" [] [] [("k", "v")]] } :
        Snapshot).Operations ≠ []
      ∧ ({ Operations := [mkOp .create "a" 1 "m" "t" "" [] [] [("k", "v")]] } :
          Snapshot).GetCreateMetadata "k"
        = some ((({ Operations := [mkOp .create "a" 1 "m" "t" "" [] [] [("k", "v")]] } :
            Snapshot).Operations.head (by decide)).GetMetadata "k") := by
  exact ⟨by decide, (C9_getCreateMetadata _ "k" (by decide)).1⟩

/-! ## Claim C10: actor and participant accumulation -/

theorem addActor_participants (snap : Snapshot) (i : Identity) :
    (snap.addActor i).Participants = snap.Participants := by
  unfold Snapshot.addActor
  split <;> rfl

theorem addParticipant_actors (snap : Snapshot) (i : Identity) :
    (snap.addParticipant i).Actors = snap.Actors := by
  unfold Snapshot.addParticipant
  split <;> rfl

theorem addActor_nodup (snap : Snapshot) (i : Identity)
    (h : (snap.Actors.map Identity.id).Nodup) :
    ((snap.addActor i).Actors.map Identity.id).Nodup := by
  unfold Snapshot.addActor
  split
  · exact h
  · next hny =>
    simp only [List.map_append, List.map_cons, List.map_nil]
    rw [List.nodup_append]
    refine ⟨h, List.nodup_singleton _, ?_⟩
    intro x hx
    simp only [List.mem_map] at hx
    obtain ⟨a, ha, hax⟩ := hx
    simp only [List.any_eq_true, not_exists, not_and] at hny
    intro hxi
    simp only [List.mem_singleton] at hxi
    refine absurd ?_ (hny a ha)
    rw [beq_iff_eq]
    exact (hax.trans hxi).symm

theorem addParticipant_nodup (snap : Snapshot) (i : Identity)
    (h : (snap.Participants.map Identity.id).Nodup) :
    ((snap.addParticipant i).Participants.map Identity.id).Nodup := by
  unfold Snapshot.addParticipant
  split
  · exact h
  · next hny =>
    simp only [List.map_append, List.map_cons, List.map_nil]
    rw [List.nodup_append]
    refine ⟨h, List.nodup_singleton _, ?_⟩
    intro x hx
    simp only [List.mem_map] at hx
    obtain ⟨a, ha, hax⟩ := hx
    simp only [List.any_eq_true, not_exists, not_and] at hny
    intro hxi
    simp only [List.mem_singleton] at hxi
    refine absurd ?_ (hny a ha)
    rw [beq_iff_eq]
    exact (hax.trans hxi).symm

theorem addActor_mem_eq (snap : Snapshot) (i : Identity)
    (h : i.id ∈ snap.Actors.map Identity.id) : snap.addActor i = snap := by
  unfold Snapshot.addActor
  rw [if_pos]
  simp only [List.mem_map] at h
  obtain ⟨a, ha, hai⟩ := h
  simp only [List.any_eq_true]
  exact ⟨a, ha, by rw [beq_iff_eq, hai]⟩

theorem addParticipant_mem_eq (snap : Snapshot) (i : Identity)
    (h : i.id ∈ snap.Participants.map Identity.id) : snap.addParticipant i = snap := by
  unfold Snapshot.addParticipant
  rw [if_pos]
  simp only [List.mem_map] at h
  obtain ⟨a, ha, hai⟩ := h
  simp only [List.any_eq_true]
  exact ⟨a, ha, by rw [beq_iff_eq, hai]⟩

theorem runCalls_nodup (snap : Snapshot) (cs : List SnapCall)
    (hA : (snap.Actors.map Identity.id).Nodup)
    (hP : (snap.Participants.map Identity.id).Nodup) :
    ((snap.runCalls cs).Actors.map Identity.id).Nodup
      ∧ ((snap.runCalls cs).Participants.map Identity.id).Nodup := by
  induction cs generalizing snap with
  | nil => exact ⟨hA, hP⟩
  | cons c rest ih =>
    cases c with
    | actor i =>
      refine ih (snap.addActor i) (addActor_nodup snap i hA) ?_
      rw [addActor_participants]
      exact hP
    | participant i =>
      refine ih (snap.addParticipant i) ?_ (addParticipant_nodup snap i hP)
      rw [addParticipant_actors]
      exact hA

/-- C10: starting from a snapshot whose actor and participant id lists
are duplicate-free (as every replayed snapshot is), any sequence of
addActor and addParticipant calls keeps each id at most once in each
list, re-adding a present id is the identity, and HasParticipant holds
exactly when some participant carries the id. -/
theorem C10_actors_participants (snap : Snapshot) (cs : List SnapCall)
    (hA : (snap.Actors.map Identity.id).Nodup)
    (hP : (snap.Participants.map Identity.id).Nodup) :
    ((snap.runCalls cs).Actors.map Identity.id).Nodup
      ∧ ((snap.runCalls cs).Participants.map Identity.id).Nodup
      ∧ (∀ i : Identity, i.id ∈ (snap.runCalls cs).Actors.map Identity.id →
          (snap.runCalls cs).addActor i = snap.runCalls cs)
      ∧ (∀ i : Identity, i.id ∈ (snap.runCalls cs).Participants.map Identity.id →
          (snap.runCalls cs).addParticipant i = snap.runCalls cs)
      ∧ (∀ id : String, (snap.runCalls cs).HasParticipant id = true ↔
          ∃ p ∈ (snap.runCalls cs).Participants, p.id = id) := by
  obtain ⟨h1, h2⟩ := runCalls_nodup snap cs hA hP
  refine ⟨h1, h2, ?_, ?_, ?_⟩
  · exact fun i hi => addActor_mem_eq _ i hi
  · exact fun i hi => addParticipant_mem_eq _ i hi
  · intro id
    unfold Snapshot.HasParticipant
    simp only [List.any_eq_true, beq_iff_eq]

/-- Witness for C10 at a concrete snapshot and call sequence. -/
theorem C10_actors_participants_witness :
    ((({} : Snapshot).Actors.map Identity.id).Nodup
        ∧ (({} : Snapshot).Participants.map Identity.id).Nodup)
      ∧ ((((({} : Snapshot).runCalls
            [.actor { id := "x" }, .actor { id := "x" },
             .participant { id := "y" }]).Actors.map Identity.id).Nodup)
          ∧ (((({} : Snapshot).runCalls
            [.actor { id := "x" }, .actor { id := "x" },
             .participant { id := "y" }]).Participants.map Identity.id).Nodup)) := by
  have h := C10_actors_participants {}
      [.actor { id := "x" }, .actor { id := "x" }, .participant { id := "y" }]
      (by simp) (by simp)
  exact ⟨⟨by simp, by simp⟩, h.1, h.2.1⟩

/-! ## Claim C8: ambiguous identity metadata is a hard error -/

theorem resolveIdentity_multiple (r : Registry) (key value : String)
    (h : 2 ≤ (r.identities.filter
        (fun i => i.GetMetadata key = some value)).length) :
    r.resolveIdentityImmutableMetadata key value = .error .multipleMatch := by
  unfold Registry.resolveIdentityImmutableMetadata
  split
  · next heq =>
    rw [heq] at h
    simp at h
  · next i heq =>
    rw [heq] at h
    simp at h
  · rfl

/-- C8: when more than one local identity holds the same (key, value)
metadata pair, the lookup fails with the multiple-match error and both
the launchpad and the github ensurePerson return it as a hard error,
never resolving to an identity. -/
theorem C8_multiple_match_surfaced (reg : Registry) (owner : LPPerson)
    (ghost : Option GhUser) (actor : GhActor)
    (h1 : 2 ≤ (reg.identities.filter
        (fun i => i.GetMetadata keyLaunchpadLogin = some owner.login)).length)
    (h2 : 2 ≤ (reg.identities.filter
        (fun i => i.GetMetadata keyGithubLogin = some actor.login)).length) :
    launchpadEnsurePerson reg owner = .error .multipleMatch
      ∧ githubEnsurePerson ghost reg (some actor) = ([], .error .multipleMatch) := by
  constructor
  · unfold launchpadEnsurePerson
    rw [resolveIdentity_multiple reg keyLaunchpadLogin owner.login h1]
    rfl
  · have hr := resolveIdentity_multiple reg keyGithubLogin actor.login h2
    simp only [githubEnsurePerson, hr, if_true]

/-- Two identities sharing both the launchpad and github login metadata
for the login "alice". -/
def ambiguousRegistry : Registry :=
  { identities :=
      [{ id := "i1", metadata := [(keyLaunchpadLogin, "alice"), (keyGithubLogin, "alice")] },
       { id := "i2", metadata := [(keyLaunchpadLogin, "alice"), (keyGithubLogin, "alice")] }] }

/-- Witness for C8: with two identities claiming login "alice", both
ensurePerson paths fail with the multiple-match error. -/
theorem C8_multiple_match_surfaced_witness :
    launchpadEnsurePerson ambiguousRegistry { login := "alice", name := "A" }
        = .error .multipleMatch
      ∧ githubEnsurePerson none ambiguousRegistry
          (some { login := "alice", avatarUrl := "" })
        = ([], .error .multipleMatch) :=
  C8_multiple_match_surfaced ambiguousRegistry { login := "alice", name := "A" }
    none { login := "alice", avatarUrl := "" } (by decide) (by decide)

/-! ## Claim C1: the second gitlab run is not idempotent -/

def c1FetchUser : Int → Option GitlabUser := fun _ =>
  some { name := "A", publicEmail := "", username := "al", avatarUrl := "" }

def c1Issue : GitlabIssue :=
  { id := 1, authorId := 10, createdAtUnix := 100, title := "T",
    description := "D", webUrl := "u1" }

def c1Note : Note :=
  { id := 7, authorId := 10, createdAtUnix := 101, updatedAtUnix := 101,
    noteType := .closed, body := "" }

def c1Data : GitlabIssueData :=
  { issue := c1Issue, notes := [c1Note], labelEvents := [] }

def emptyStore : Store :=
  { registry := { identities := [] }, bugs := [] }

def c1Run1 : Store × List ImportResult :=
  gitlabImportAll c1FetchUser "p" emptyStore [c1Data] none

def c1Run2 : Store × List ImportResult :=
  gitlabImportAll c1FetchUser "p" c1Run1.1 [c1Data] none

/-- C1 is violated by the source: the gitlab NOTE_CLOSED branch performs
no idempotency lookup, so re-running the same import against unchanged
remote data appends a second (duplicate) status operation to the bug
(log length 2 after the first run, 3 after the second) and the second
run emits a StatusChange result, not only Nothing results. -/
theorem C1_gitlab_second_run_duplicates_close :
    c1Run1.1.bugs.map (fun b => b.ops.length) = [2]
      ∧ c1Run2.1.bugs.map (fun b => b.ops.length) = [3]
      ∧ c1Run2.2.any (fun r => r.event == ImportEvent.statusChange) = true
      ∧ c1Run2.2.all (fun r => r.event == ImportEvent.nothing) = false := by
  decide

/-! ## Claim C2: NoMatchingOp is returned as an error by ensureNote -/

def c2Note : Note :=
  { id := 11, authorId := 10, createdAtUnix := 102, updatedAtUnix := 102,
    noteType := .comment, body := "hi" }

def c2Data : GitlabIssueData :=
  { issue := c1Issue, notes := [c2Note], labelEvents := [] }

def c2Run : Store × List ImportResult :=
  gitlabImportAll c1FetchUser "p" emptyStore [c2Data] none

/-- C2 is violated by the source: for a NOTE_COMMENT note that was never
imported, the `if errResolve != nil` guard of ensureNote returns
cache.ErrNoMatchingOp itself instead of taking the create path, and the
run aborts with an error result wrapping that signal. -/
theorem C2_noMatchingOp_returned_as_error :
    (gitlabEnsureNote c1FetchUser c1Run1.1.registry c1Issue
          { ops := [mkOp .create "i:A::al" 100 "D" "T" "" [] []
              [(keyOrigin, gitlabTarget), (keyGitlabId, "1"),
               (keyGitlabUrl, "u1"), (keyGitlabProject, "p")]] } c2Note).2
        = Outcome.err ImpErr.noMatchingOp
      ∧ c2Run.2.getLast? = some (NewImportError
          (some "note creation: no matching operation found") "11") := by
  decide

/-! ## Claim C3: a description change appends a comment edit but emits a
TitleEdition result -/

def c3Issue : GitlabIssue :=
  { id := 1, authorId := 10, createdAtUnix := 100, title := "T",
    description := "new", webUrl := "u1" }

def c3Note : Note :=
  { id := 9, authorId := 10, createdAtUnix := 103, updatedAtUnix := 103,
    noteType := .descriptionChanged, body := "" }

def c3Bug : BugState :=
  { ops := [mkOp .create "i:A::al" 100 "old" "T" "" [] []
      [(keyOrigin, gitlabTarget), (keyGitlabId, "1"),
       (keyGitlabUrl, "u1"), (keyGitlabProject, "p")]] }

def c3Out : List ImportResult × Outcome (Registry × BugState) :=
  gitlabEnsureNote c1FetchUser c1Run1.1.registry c3Issue c3Bug c3Note

/-- C3 is violated by the source: the gitlab NOTE_DESCRIPTION_CHANGED
branch appends an EditCommentOperation (a comment edition) but emits a
TitleEdition result; the result does carry the new operation hash, but
its type does not match the appended operation kind. -/
theorem C3_comment_edit_emits_title_edition :
    c3Out.1.map (fun r => r.event) = [ImportEvent.titleEdition]
      ∧ (match c3Out.2 with
          | .ok (_, b2) => b2.ops.getLast?.map (fun op => op.kind)
          | _ => none) = some OpKind.editComment
      ∧ (match c3Out.2 with
          | .ok (_, b2) => b2.ops.getLast?.map (fun op => op.hash)
          | _ => none) = c3Out.1.head?.map (fun r => r.id) := by
  decide

/-! ## Claim C4: already-imported github status events skip silently -/

def c4Actor : GhActor :=
  { login := "al", avatarUrl := "" }

def c4Reg : Registry :=
  { identities := [{ id := "i3", login := "al", metadata := [(keyGithubLogin, "al")] }] }

def c4Bug : BugState :=
  { ops := [mkOp .create "i3" 100 "D" "T" "" [] []
      [(keyOrigin, githubTarget), (keyGithubId, "1"), (keyGithubUrl, "u1")],
    mkOp .setStatusClose "i3" 101 "" "" "" [] [] [(keyGithubId, "5")]] }

/-- C4 is violated by the source: for a ClosedEvent or ReopenedEvent
whose github id is already present as operation metadata, the
`err != cache.ErrNoMatchingOp` guard returns the nil error first, so the
item is skipped WITHOUT emitting the Nothing result (the `err == nil`
branch below it is unreachable); the LabeledEvent case, whose checks are
in the other order, does emit the Nothing result. -/
theorem C4_closed_event_skips_without_nothing :
    githubEnsureTimelineItem none c4Reg c4Bug (.closedEvent "5" (some c4Actor) 50)
        = ([], .ok (c4Reg, c4Bug))
      ∧ githubEnsureTimelineItem none c4Reg c4Bug (.reopenedEvent "5" (some c4Actor) 50)
        = ([], .ok (c4Reg, c4Bug))
      ∧ githubEnsureTimelineItem none c4Reg c4Bug
          (.labeledEvent "5" (some c4Actor) 50 "L")
        = ([NewImportNothing "" "operation already imported: LabeledEvent"],
            .ok (c4Reg, c4Bug)) := by
  decide

/-! ## Claim C5: launchpad cancellation stops silently -/

def c5LpBug : LPBug :=
  { id := 42, owner := { login := "bob", name := "B" }, createdAtUnix := 10,
    title := "t", description := "d", messages := [] }

def c5GhIssue : GhIssue :=
  { id := "1", url := "u1", title := "T", body := "D", createdAtUnix := 100,
    author := some c4Actor, edits := [] }

def c5GhData : GithubIssueData :=
  { issue := c5GhIssue, timeline := [] }

/-- C5 is violated by the source: on observing cancellation the
launchpad importer returns without emitting any result (and without
closing the stream), while the github importer in the same situation
emits the final error result carrying the cancellation cause. -/
theorem C5_launchpad_cancellation_silent :
    launchpadImportAll emptyStore [c5LpBug] (some 0) = (emptyStore, [])
      ∧ (githubRunLoop none (some 0) none 0 emptyStore [c5GhData]).2
        = [NewImportError (some "context canceled") ""] := by
  decide

/-! ## Claim C7: the zero-messages error result has a nil cause -/

/-- C7 is violated by the source: a launchpad bug whose fetched message
list is empty does make the run stop with a result built by
NewImportError, but the `err` passed to it is the nil error left by
ensurePerson (the ResolveBugCreateMetadata error is shadowed), so the
surfaced result carries no error cause at all: every result of the run
has a nil Err field. -/
theorem C7_empty_messages_error_has_nil_cause :
    (launchpadImportAll emptyStore [c5LpBug] none).2
        = [NewImportError none "failed to fetch comments for bug #42"]
      ∧ (launchpadImportAll emptyStore [c5LpBug] none).2.all
          (fun r => r.err.isNone) = true := by
  decide

/-! ## Claim C6: an Error result is always the last item of the stream -/

theorem gitlabEnsurePerson_allOk (f : Int → Option GitlabUser) (repo : Registry)
    (id : Int) : allOk (gitlabEnsurePerson f repo id).1 = true := by
  unfold gitlabEnsurePerson
  repeat' split
  all_goals simp

theorem gitlabEnsureIssue_allOk (f : Int → Option GitlabUser) (pid : String)
    (store : Store) (issue : GitlabIssue) :
    allOk (gitlabEnsureIssue f pid store issue).1 = true := by
  unfold gitlabEnsureIssue
  rcases hpe : gitlabEnsurePerson f store.registry issue.authorId with ⟨rs0, r0⟩
  have h0 : allOk rs0 = true := by
    have h := gitlabEnsurePerson_allOk f store.registry issue.authorId
    rw [hpe] at h
    exact h
  cases r0 with
  | error e => simpa using h0
  | ok p =>
    obtain ⟨reg, author⟩ := p
    simp only []
    cases hbr : store.resolveBugCreateMetadata keyGitlabUrl issue.webUrl with
    | ok idx => simp [h0]
    | error e =>
      simp only []
      split
      · simpa using h0
      · simp [textCleanup, h0]

theorem gitlabEnsureNote_allOk (f : Int → Option GitlabUser) (repo : Registry)
    (issue : GitlabIssue) (b : BugState) (note : Note) :
    allOk (gitlabEnsureNote f repo issue b note).1 = true := by
  unfold gitlabEnsureNote
  rcases hpe : gitlabEnsurePerson f repo note.authorId with ⟨rs0, r0⟩
  have h0 : allOk rs0 = true := by
    have h := gitlabEnsurePerson_allOk f repo note.authorId
    rw [hpe] at h
    exact h
  cases r0 with
  | error e => simpa using h0
  | ok p =>
    obtain ⟨repo2, author⟩ := p
    simp only []
    cases note.noteType with
    | closed => simp [BugState.closeRaw, h0]
    | reopened => simp [BugState.openRaw, h0]
    | descriptionChanged =>
      simp only []
      cases hc : (snapshotComments b.ops).head? with
      | none => simpa using h0
      | some firstComment =>
        simp only []
        split
        · simp [BugState.editCommentRaw, h0]
        · simpa using h0
    | comment =>
      simp only []
      cases hr : b.resolveOperationWithMetadata keyGitlabId (parseID note.id) with
      | error e => simpa using h0
      | ok hash =>
        simp only [textCleanup]
        cases hf : (snapshotComments b.ops).find? (fun c => c.id == hash) with
        | none => simpa using h0
        | some comment =>
          simp only []
          split
          · simp [BugState.editCommentRaw, h0]
          · simpa using h0
    | titleChanged => simp [BugState.setTitleRaw, h0]
    | unsupported => simp [h0]

theorem gitlabEnsureLabelEvent_allOk (f : Int → Option GitlabUser) (repo : Registry)
    (b : BugState) (ev : GitlabLabelEvent) :
    allOk (gitlabEnsureLabelEvent f repo b ev).1 = true := by
  unfold gitlabEnsureLabelEvent
  cases hr : b.resolveOperationWithMetadata keyGitlabId (parseID ev.id) with
  | ok h => simp
  | error e =>
    simp only []
    split
    · simp
    · rcases hpe : gitlabEnsurePerson f repo ev.userId with ⟨rs0, r0⟩
      have h0 : allOk rs0 = true := by
        have h := gitlabEnsurePerson_allOk f repo ev.userId
        rw [hpe] at h
        exact h
      cases r0 with
      | error e2 => simpa using h0
      | ok p =>
        obtain ⟨repo2, author⟩ := p
        simp only []
        split
        · simpa [BugState.forceChangeLabelsRaw] using h0
        · split
          · simpa [BugState.forceChangeLabelsRaw] using h0
          · simpa using h0

theorem gitlabNotesLoop_allOk (f : Int → Option GitlabUser) (issue : GitlabIssue)
    (notes : List Note) : ∀ (reg : Registry) (b : BugState),
      allOk (gitlabNotesLoop f reg issue b notes).1 = true := by
  induction notes with
  | nil =>
    intro reg b
    rfl
  | cons n rest ih =>
    intro reg b
    unfold gitlabNotesLoop
    rcases hne : gitlabEnsureNote f reg issue b n with ⟨rs, o⟩
    have h0 : allOk rs = true := by
      have h := gitlabEnsureNote_allOk f reg issue b n
      rw [hne] at h
      exact h
    cases o with
    | crash m => simpa using h0
    | err e => simpa using h0
    | ok p =>
      obtain ⟨reg2, b2⟩ := p
      simp only []
      rcases hrec : gitlabNotesLoop f reg2 issue b2 rest with ⟨rs2, o2⟩
      have h2 : allOk rs2 = true := by
        have h := ih reg2 b2
        rw [hrec] at h
        exact h
      simp [h0, h2]

theorem gitlabLabelEventsLoop_allOk (f : Int → Option GitlabUser)
    (evs : List GitlabLabelEvent) : ∀ (reg : Registry) (b : BugState),
      allOk (gitlabLabelEventsLoop f reg b evs).1 = true := by
  induction evs with
  | nil =>
    intro reg b
    rfl
  | cons ev rest ih =>
    intro reg b
    unfold gitlabLabelEventsLoop
    rcases hne : gitlabEnsureLabelEvent f reg b ev with ⟨rs, o⟩
    have h0 : allOk rs = true := by
      have h := gitlabEnsureLabelEvent_allOk f reg b ev
      rw [hne] at h
      exact h
    cases o with
    | crash m => simpa using h0
    | err e => simpa using h0
    | ok p =>
      obtain ⟨reg2, b2⟩ := p
      simp only []
      rcases hrec : gitlabLabelEventsLoop f reg2 b2 rest with ⟨rs2, o2⟩
      have h2 : allOk rs2 = true := by
        have h := ih reg2 b2
        rw [hrec] at h
        exact h
      simp [h0, h2]

theorem gitlabProcessIssue_allOk (f : Int → Option GitlabUser) (pid : String)
    (store : Store) (d : GitlabIssueData) :
    allOk (gitlabProcessIssue f pid store d).1 = true := by
  unfold gitlabProcessIssue
  rcases hei : gitlabEnsureIssue f pid store d.issue with ⟨rs0, r0⟩
  have h0 : allOk rs0 = true := by
    have h := gitlabEnsureIssue_allOk f pid store d.issue
    rw [hei] at h
    exact h
  cases r0 with
  | error e => simpa using h0
  | ok p =>
    obtain ⟨store1, idx⟩ := p
    simp only []
    cases hb : store1.bugs[idx]? with
    | none => simpa using h0
    | some b =>
      simp only []
      rcases hnl : gitlabNotesLoop f store1.registry d.issue b d.notes with ⟨rs1, o1⟩
      have h1 : allOk rs1 = true := by
        have h := gitlabNotesLoop_allOk f d.issue d.notes store1.registry b
        rw [hnl] at h
        exact h
      cases o1 with
      | crash m => simp [h0, h1]
      | fail r => simp [h0, h1]
      | ok p1 =>
        obtain ⟨reg, b1⟩ := p1
        simp only []
        rcases hll : gitlabLabelEventsLoop f reg b1 d.labelEvents with ⟨rs2, o2⟩
        have h2 : allOk rs2 = true := by
          have h := gitlabLabelEventsLoop_allOk f d.labelEvents reg b1
          rw [hll] at h
          exact h
        cases o2 with
        | crash m => simp [h0, h1, h2]
        | fail r => simp [h0, h1, h2]
        | ok p2 =>
          obtain ⟨reg2, b2⟩ := p2
          simp only []
          cases d.iterErr with
          | some m => simp [h0, h1, h2]
          | none => simp [h0, h1, h2]

theorem gitlabRunLoop_errLast (f : Int → Option GitlabUser) (pid : String)
    (cf : Option Nat) (issues : List GitlabIssueData) :
    ∀ (idx : Nat) (store : Store),
      allOk (gitlabRunLoop f pid cf idx store issues).2.dropLast = true := by
  induction issues with
  | nil =>
    intro idx store
    rfl
  | cons d rest ih =>
    intro idx store
    unfold gitlabRunLoop
    split
    · rfl
    · rcases hpi : gitlabProcessIssue f pid store d with ⟨rs, o⟩
      have h0 : allOk rs = true := by
        have h := gitlabProcessIssue_allOk f pid store d
        rw [hpi] at h
        exact h
      cases o with
      | crash m => simpa using allOk_dropLast rs h0
      | fail r => simpa using allOk_dropLast_concat rs r h0
      | ok store1 =>
        simp only []
        rcases hrec : gitlabRunLoop f pid cf (idx + 1) store1 rest with ⟨store2, rs2⟩
        have h2 : allOk rs2.dropLast = true := by
          have h := ih (idx + 1) store1
          rw [hrec] at h
          exact h
        simpa using allOk_dropLast_append rs rs2 h0 h2

theorem githubGetGhost_allOk (ghost : Option GhUser) (repo : Registry) :
    allOk (githubGetGhost ghost repo).1 = true := by
  unfold githubGetGhost
  repeat' split
  all_goals simp

theorem githubEnsurePerson_allOk (ghost : Option GhUser) (repo : Registry)
    (actor : Option GhActor) : allOk (githubEnsurePerson ghost repo actor).1 = true := by
  unfold githubEnsurePerson
  cases actor with
  | none => exact githubGetGhost_allOk ghost repo
  | some a =>
    simp only []
    repeat' split
    all_goals simp

theorem githubEnsureCommentEdit_allOk (ghost : Option GhUser) (repo : Registry)
    (b : BugState) (target : String) (edit : GhEdit) :
    allOk (githubEnsureCommentEdit ghost repo b target edit).1 = true := by
  unfold githubEnsureCommentEdit
  cases hr : b.resolveOperationWithMetadata keyGithubId edit.id with
  | ok h => simp
  | error e =>
    simp only []
    split
    · simp
    · rcases hpe : githubEnsurePerson ghost repo edit.editor with ⟨rs0, r0⟩
      have h0 : allOk rs0 = true := by
        have h := githubEnsurePerson_allOk ghost repo edit.editor
        rw [hpe] at h
        exact h
      cases r0 with
      | error e2 => simpa using h0
      | ok p =>
        obtain ⟨repo2, editor⟩ := p
        simp only []
        cases edit.deletedAtUnix with
        | some t => simp [h0]
        | none =>
          simp only []
          cases edit.diff with
          | none => simpa using h0
          | some diff => simp [textCleanup, BugState.editCommentRaw, h0]

theorem githubCommentEditsLoop_allOk (ghost : Option GhUser) (item : GhComment)
    (edits : List GhEdit) : ∀ (repo : Registry) (b : BugState) (target : String)
      (i : Nat), allOk (githubCommentEditsLoop ghost repo b item target i edits).1 = true := by
  induction edits with
  | nil =>
    intro repo b target i
    rfl
  | cons edit rest ih =>
    intro repo b target i
    unfold githubCommentEditsLoop
    split
    · rcases hrec : githubCommentEditsLoop ghost repo b item target (i + 1) rest
        with ⟨rs, o⟩
      have h2 : allOk rs = true := by
        have h := ih repo b target (i + 1)
        rw [hrec] at h
        exact h
      simp [h2]
    · rcases hpe : githubEnsurePerson ghost repo edit.editor with ⟨rs0, r0⟩
      have h0 : allOk rs0 = true := by
        have h := githubEnsurePerson_allOk ghost repo edit.editor
        rw [hpe] at h
        exact h
      cases r0 with
      | error e => simpa using h0
      | ok p =>
        obtain ⟨repo2, editor⟩ := p
        simp only []
        split
        · cases edit.diff with
          | none => simpa using h0
          | some diff =>
            simp only [textCleanup]
            rcases hab : b.addCommentRaw editor.id edit.createdAtUnix diff
                [(keyGithubId, item.id), (keyGithubUrl, item.url)] with ⟨b2, op⟩
            rcases hrec : githubCommentEditsLoop ghost repo2 b2 item op.hash
                (i + 1) rest with ⟨rs1, o1⟩
            have h2 : allOk rs1 = true := by
              have h := ih repo2 b2 op.hash (i + 1)
              rw [hrec] at h
              exact h
            simp [h0, h2]
        · rcases hce : githubEnsureCommentEdit ghost repo2 b target edit with ⟨rs1, o1⟩
          have h1 : allOk rs1 = true := by
            have h := githubEnsureCommentEdit_allOk ghost repo2 b target edit
            rw [hce] at h
            exact h
          cases o1 with
          | err e => simp [h0, h1]
          | crash m => simp [h0, h1]
          | ok p1 =>
            obtain ⟨repo3, b3⟩ := p1
            simp only []
            rcases hrec : githubCommentEditsLoop ghost repo3 b3 item target (i + 1)
                rest with ⟨rs2, o2⟩
            have h2 : allOk rs2 = true := by
              have h := ih repo3 b3 target (i + 1)
              rw [hrec] at h
              exact h
            simp [h0, h1, h2]

theorem githubEnsureTimelineComment_allOk (ghost : Option GhUser) (repo : Registry)
    (b : BugState) (item : GhComment) (edits : List GhEdit) :
    allOk (githubEnsureTimelineComment ghost repo b item edits).1 = true := by
  unfold githubEnsureTimelineComment
  rcases hpe : githubEnsurePerson ghost repo item.author with ⟨rs0, r0⟩
  have h0 : allOk rs0 = true := by
    have h := githubEnsurePerson_allOk ghost repo item.author
    rw [hpe] at h
    exact h
  cases r0 with
  | error e => simpa using h0
  | ok p =>
    obtain ⟨repo2, author⟩ := p
    simp only []
    cases hr : b.resolveOperationWithMetadata keyGithubId item.id with
    | error e =>
      simp only []
      split
      · simpa using h0
      · split
        · simp [textCleanup, BugState.addCommentRaw, h0]
        · rcases hel : githubCommentEditsLoop ghost repo2 b item "" 0 edits
            with ⟨rs2, o2⟩
          have h2 : allOk rs2 = true := by
            have h := githubCommentEditsLoop_allOk ghost item edits repo2 b "" 0
            rw [hel] at h
            exact h
          simp [h0, h2]
    | ok target =>
      simp only []
      split
      · simp [h0]
      · rcases hel : githubCommentEditsLoop ghost repo2 b item target 0 edits
          with ⟨rs2, o2⟩
        have h2 : allOk rs2 = true := by
          have h := githubCommentEditsLoop_allOk ghost item edits repo2 b target 0
          rw [hel] at h
          exact h
        simp [h0, h2]

theorem githubEnsureTimelineItem_allOk (ghost : Option GhUser) (repo : Registry)
    (b : BugState) (item : GhTimelineItem) :
    allOk (githubEnsureTimelineItem ghost repo b item).1 = true := by
  unfold githubEnsureTimelineItem
  cases item with
  | issueComment c edits =>
    simp only []
    rcases htc : githubEnsureTimelineComment ghost repo b c edits with ⟨rs, o⟩
    have h0 : allOk rs = true := by
      have h := githubEnsureTimelineComment_allOk ghost repo b c edits
      rw [htc] at h
      exact h
    cases o with
    | err e => simpa using h0
    | crash m => simpa using h0
    | ok p => simpa using h0
  | labeledEvent id actor t label =>
    simp only []
    cases hr : b.resolveOperationWithMetadata keyGithubId id with
    | ok h => simp
    | error e =>
      simp only []
      split
      · simp
      · rcases hpe : githubEnsurePerson ghost repo actor with ⟨rs0, r0⟩
        have h0 : allOk rs0 = true := by
          have h := githubEnsurePerson_allOk ghost repo actor
          rw [hpe] at h
          exact h
        cases r0 with
        | error e2 => simpa using h0
        | ok p =>
          obtain ⟨repo2, author⟩ := p
          simp [BugState.forceChangeLabelsRaw, h0]
  | unlabeledEvent id actor t label =>
    simp only []
    cases hr : b.resolveOperationWithMetadata keyGithubId id with
    | ok h => simp
    | error e =>
      simp only []
      split
      · simp
      · rcases hpe : githubEnsurePerson ghost repo actor with ⟨rs0, r0⟩
        have h0 : allOk rs0 = true := by
          have h := githubEnsurePerson_allOk ghost repo actor
          rw [hpe] at h
          exact h
        cases r0 with
        | error e2 => simpa using h0
        | ok p =>
          obtain ⟨repo2, author⟩ := p
          simp [BugState.forceChangeLabelsRaw, h0]
  | closedEvent id actor t =>
    simp only []
    cases hr : b.resolveOperationWithMetadata keyGithubId id with
    | ok h => simp
    | error e =>
      simp only []
      split
      · simp
      · rcases hpe : githubEnsurePerson ghost repo actor with ⟨rs0, r0⟩
        have h0 : allOk rs0 = true := by
          have h := githubEnsurePerson_allOk ghost repo actor
          rw [hpe] at h
          exact h
        cases r0 with
        | error e2 => simpa using h0
        | ok p =>
          obtain ⟨repo2, author⟩ := p
          simp [BugState.closeRaw, h0]
  | reopenedEvent id actor t =>
    simp only []
    cases hr : b.resolveOperationWithMetadata keyGithubId id with
    | ok h => simp
    | error e =>
      simp only []
      split
      · simp
      · rcases hpe : githubEnsurePerson ghost repo actor with ⟨rs0, r0⟩
        have h0 : allOk rs0 = true := by
          have h := githubEnsurePerson_allOk ghost repo actor
          rw [hpe] at h
          exact h
        cases r0 with
        | error e2 => simpa using h0
        | ok p =>
          obtain ⟨repo2, author⟩ := p
          simp [BugState.openRaw, h0]
  | renamedTitleEvent id actor t title =>
    simp only []
    cases hr : b.resolveOperationWithMetadata keyGithubId id with
    | ok h => simp
    | error e =>
      simp only []
      split
      · simp
      · rcases hpe : githubEnsurePerson ghost repo actor with ⟨rs0, r0⟩
        have h0 : allOk rs0 = true := by
          have h := githubEnsurePerson_allOk ghost repo actor
          rw [hpe] at h
          exact h
        cases r0 with
        | error e2 => simpa using h0
        | ok p =>
          obtain ⟨repo2, author⟩ := p
          simp [BugState.setTitleRaw, h0]
  | unknownItem t => simp

theorem githubIssueEditsLoop_allOk (ghost : Option GhUser) (issue : GhIssue)
    (authorId : String) (edits : List GhEdit) :
    ∀ (repo : Registry) (bOpt : Option BugState) (i : Nat),
      allOk (githubIssueEditsLoop ghost repo issue authorId bOpt i edits).1 = true := by
  induction edits with
  | nil =>
    intro repo bOpt i
    rfl
  | cons edit rest ih =>
    intro repo bOpt i
    unfold githubIssueEditsLoop
    split
    · rcases hrec : githubIssueEditsLoop ghost repo issue authorId bOpt (i + 1) rest
        with ⟨rs, o⟩
      have h2 : allOk rs = true := by
        have h := ih repo bOpt (i + 1)
        rw [hrec] at h
        exact h
      simp [h2]
    · cases edit.diff with
      | none => rfl
      | some diff =>
        simp only [textCleanup]
        cases bOpt with
        | none =>
          simp only []
          rcases hrec : githubIssueEditsLoop ghost repo issue authorId
              (some { ops := [mkOp .create authorId issue.createdAtUnix diff
                issue.title "" [] []
                [(keyOrigin, githubTarget), (keyGithubId, issue.id),
                 (keyGithubUrl, issue.url)]] }) (i + 1) rest with ⟨rs, o⟩
          have h2 : allOk rs = true := by
            have h := ih repo (some { ops := [mkOp .create authorId
                issue.createdAtUnix diff issue.title "" [] []
                [(keyOrigin, githubTarget), (keyGithubId, issue.id),
                 (keyGithubUrl, issue.url)]] }) (i + 1)
            rw [hrec] at h
            exact h
          simp [h2]
        | some b =>
          simp only []
          cases hr : b.resolveOperationWithMetadata keyGithubUrl issue.url with
          | error e => rfl
          | ok target =>
            simp only []
            rcases hce : githubEnsureCommentEdit ghost repo b target edit
              with ⟨rs1, o1⟩
            have h1 : allOk rs1 = true := by
              have h := githubEnsureCommentEdit_allOk ghost repo b target edit
              rw [hce] at h
              exact h
            cases o1 with
            | err e => simpa using h1
            | crash m => simpa using h1
            | ok p1 =>
              obtain ⟨repo3, b3⟩ := p1
              simp only []
              rcases hrec : githubIssueEditsLoop ghost repo3 issue authorId
                  (some b3) (i + 1) rest with ⟨rs2, o2⟩
              have h2 : allOk rs2 = true := by
                have h := ih repo3 (some b3) (i + 1)
                rw [hrec] at h
                exact h
              simp [h1, h2]

theorem githubEnsureIssue_allOk (ghost : Option GhUser) (store : Store)
    (issue : GhIssue) : allOk (githubEnsureIssue ghost store issue).1 = true := by
  unfold githubEnsureIssue
  rcases hpe : githubEnsurePerson ghost store.registry issue.author with ⟨rs0, r0⟩
  have h0 : allOk rs0 = true := by
    have h := githubEnsurePerson_allOk ghost store.registry issue.author
    rw [hpe] at h
    exact h
  cases r0 with
  | error e => simpa using h0
  | ok p =>
    obtain ⟨reg, author⟩ := p
    simp only []
    cases hbr : store.resolveBugCreateMetadata keyGithubUrl issue.url with
    | ok idx =>
      simp only []
      cases hb : store.bugs[idx]? with
      | none => simpa using h0
      | some b0 =>
        simp only []
        split
        · simp [h0]
        · rcases hel : githubIssueEditsLoop ghost reg issue author.id (some b0) 0
              issue.edits with ⟨rs1, o1⟩
          have h1 : allOk rs1 = true := by
            have h := githubIssueEditsLoop_allOk ghost issue author.id issue.edits
                reg (some b0) 0
            rw [hel] at h
            exact h
          cases o1 with
          | err e => simp [h0, h1]
          | crash m => simp [h0, h1]
          | ok p1 =>
            obtain ⟨reg2, bOpt⟩ := p1
            simp only []
            cases bOpt with
            | some b => simp [h0, h1]
            | none => simp [h0, h1]
    | error e =>
      simp only []
      split
      · simpa using h0
      · split
        · simp [textCleanup, h0]
        · rcases hel : githubIssueEditsLoop ghost reg issue author.id none 0
              issue.edits with ⟨rs1, o1⟩
          have h1 : allOk rs1 = true := by
            have h := githubIssueEditsLoop_allOk ghost issue author.id issue.edits
                reg none 0
            rw [hel] at h
            exact h
          cases o1 with
          | err e2 => simp [h0, h1]
          | crash m => simp [h0, h1]
          | ok p1 =>
            obtain ⟨reg2, bOpt⟩ := p1
            simp only []
            cases bOpt with
            | some b => simp [h0, h1]
            | none => simp [h0, h1]

theorem githubTimelineLoop_allOk (ghost : Option GhUser)
    (items : List GhTimelineItem) : ∀ (reg : Registry) (b : BugState),
      allOk (githubTimelineLoop ghost reg b items).1 = true := by
  induction items with
  | nil =>
    intro reg b
    rfl
  | cons item rest ih =>
    intro reg b
    unfold githubTimelineLoop
    rcases hti : githubEnsureTimelineItem ghost reg b item with ⟨rs, o⟩
    have h0 : allOk rs = true := by
      have h := githubEnsureTimelineItem_allOk ghost reg b item
      rw [hti] at h
      exact h
    cases o with
    | crash m => simpa using h0
    | err e => simpa using h0
    | ok p =>
      obtain ⟨reg2, b2⟩ := p
      simp only []
      rcases hrec : githubTimelineLoop ghost reg2 b2 rest with ⟨rs2, o2⟩
      have h2 : allOk rs2 = true := by
        have h := ih reg2 b2
        rw [hrec] at h
        exact h
      simp [h0, h2]

theorem githubProcessIssue_allOk (ghost : Option GhUser) (store : Store)
    (d : GithubIssueData) : allOk (githubProcessIssue ghost store d).1 = true := by
  unfold githubProcessIssue
  rcases hei : githubEnsureIssue ghost store d.issue with ⟨rs0, r0⟩
  have h0 : allOk rs0 = true := by
    have h := githubEnsureIssue_allOk ghost store d.issue
    rw [hei] at h
    exact h
  cases r0 with
  | err e => simpa using h0
  | crash m => simpa using h0
  | ok p =>
    obtain ⟨store1, bOpt⟩ := p
    simp only []
    cases bOpt with
    | none =>
      simp only []
      cases d.timeline with
      | nil => simpa using h0
      | cons x xs => simpa using h0
    | some idx =>
      simp only []
      cases hb : store1.bugs[idx]? with
      | none => simpa using h0
      | some b =>
        simp only []
        rcases htl : githubTimelineLoop ghost store1.registry b d.timeline
          with ⟨rs1, o1⟩
        have h1 : allOk rs1 = true := by
          have h := githubTimelineLoop_allOk ghost d.timeline store1.registry b
          rw [htl] at h
          exact h
        cases o1 with
        | crash m => simp [h0, h1]
        | fail r => simp [h0, h1]
        | ok p1 =>
          obtain ⟨reg, b2⟩ := p1
          simp [h0, h1]

theorem githubRunLoop_errLast (ghost : Option GhUser) (cf : Option Nat)
    (iterErr : Option String) (issues : List GithubIssueData) :
    ∀ (idx : Nat) (store : Store),
      allOk (githubRunLoop ghost cf iterErr idx store issues).2.dropLast = true := by
  induction issues with
  | nil =>
    intro idx store
    unfold githubRunLoop
    cases iterErr with
    | some m => rfl
    | none => rfl
  | cons d rest ih =>
    intro idx store
    unfold githubRunLoop
    split
    · rfl
    · rcases hpi : githubProcessIssue ghost store d with ⟨rs, o⟩
      have h0 : allOk rs = true := by
        have h := githubProcessIssue_allOk ghost store d
        rw [hpi] at h
        exact h
      cases o with
      | crash m => simpa using allOk_dropLast rs h0
      | fail r => simpa using allOk_dropLast_concat rs r h0
      | ok store1 =>
        simp only []
        rcases hrec : githubRunLoop ghost cf iterErr (idx + 1) store1 rest
          with ⟨store2, rs2⟩
        have h2 : allOk rs2.dropLast = true := by
          have h := ih (idx + 1) store1
          rw [hrec] at h
          exact h
        simpa using allOk_dropLast_append rs rs2 h0 h2

/-- C6: for every gitlab and every github import run, every result that
precedes the last item of the stream has a nil Err field — an Error
result, when one is emitted, is the last item before the stream closes. -/
theorem C6_error_result_is_last :
    (∀ (f : Int → Option GitlabUser) (pid : String) (store : Store)
      (issues : List GitlabIssueData) (cf : Option Nat),
        allOk (gitlabImportAll f pid store issues cf).2.dropLast = true)
    ∧ (∀ (ghost : Option GhUser) (store : Store) (issues : List GithubIssueData)
      (iterErr : Option String) (cf : Option Nat),
        allOk (githubImportAll ghost store issues iterErr cf).2.dropLast = true) := by
  constructor
  · intro f pid store issues cf
    exact gitlabRunLoop_errLast f pid cf issues 0 store
  · intro ghost store issues iterErr cf
    exact githubRunLoop_errLast ghost cf iterErr issues 0 store

end GitBug
